import Mathlib

/-!
Shallow embedding of `bot/cogs/watchchannels/watchchannel.py` (the `WatchChannel`
abstract cog): the watched-user cache, the per-user-per-channel message queue,
the consumption engine with its snapshot (`consumption_queue`), the
header/grouping policy of `relay_message`, and the startup/teardown logic.

Python dictionaries are embedded as association lists in key-insertion order
(Python 3.7+ dicts iterate in insertion order); `collections.deque` as `List`
with `append` at the tail and `popleft` at the head.  The cooperative asyncio
scheduler is embedded as a labelled transition system whose atomic steps are
exactly the code segments between `await` suspension points.
-/

set_option maxHeartbeats 1000000

namespace WatchBot

/-- A Discord message as seen by `WatchChannel`: exactly the fields the cog
reads (`msg.author.id`, `msg.channel.id`, `msg.clean_content`,
`msg.attachments` truthiness).  `mid` is the message id (used by the
development only to tell messages apart). -/
structure Msg where
  mid : Nat
  author : Nat
  channel : Nat
  clean_content : String
  has_attachments : Bool
deriving DecidableEq

/-- The `MessageHistory` dataclass (lines 43-50): header/grouping tracker with
`last_author`, `last_channel` both defaulting to `None` and `message_count`
defaulting to `0`. -/
structure MessageHistory where
  last_author : Option Nat := none
  last_channel : Option Nat := none
  message_count : Nat := 0
deriving DecidableEq

/-- The header condition of `relay_message` (line 234):
`msg.author.id != last_author or msg.channel.id != last_channel or count >= limit`
where `limit = BigBrotherConfig.header_message_limit` (an external config
value, kept as a parameter).  `last_author` and `last_channel` start as
`None`, and in Python `int != None` evaluates to `True`, so the condition
holds for the very first relayed message. -/
def headerRequired (limit : Nat) (h : MessageHistory) (m : Msg) : Bool :=
  (h.last_author != some m.author) || (h.last_channel != some m.channel)
    || decide (limit ≤ h.message_count)

/-- Line 235: `MessageHistory(last_author=msg.author.id, last_channel=msg.channel.id)`;
the `message_count` field is left at its dataclass default `0`. -/
def resetHistory (m : Msg) : MessageHistory :=
  { last_author := some m.author, last_channel := some m.channel, message_count := 0 }

/-- The tracker after the header decision of `relay_message` (lines 234-237):
reset when a header is required, untouched otherwise. -/
def updatedHistory (limit : Nat) (h : MessageHistory) (m : Msg) : MessageHistory :=
  if headerRequired limit h m then resetHistory m else h

/-- The tracker when `relay_message` returns: after the header decision, line
272 runs `self.message_history.message_count += 1` unconditionally (none of
the intervening sends can raise: `webhook_send` catches `HTTPException`, and
the attachment block catches `Forbidden`, `NotFound` and `HTTPException`). -/
def relayHistStep (limit : Nat) (h : MessageHistory) (m : Msg) : MessageHistory :=
  let h1 := updatedHistory limit h m
  { h1 with message_count := h1.message_count + 1 }

/-- Outcome of `messages.send_attachments` inside `relay_message`
(lines 253-270): success, a `Forbidden`/`NotFound` error (downgraded to a
placeholder embed), or a generic `HTTPException` (logged only). -/
inductive AttachOutcome
  | ok
  | forbiddenOrNotFound
  | httpError
deriving DecidableEq

/-- Transport outcomes fed to one `relay_message` call: whether the webhook
send of the header embed and of the body succeed, and the attachment
outcome.  `webhook_send` (lines 213-227) swallows `discord.HTTPException`
after logging it, so a failed send never propagates into `relay_message`. -/
structure RelayEnv where
  header_send_ok : Bool
  body_send_ok : Bool
  attach : AttachOutcome
deriving DecidableEq

/-- Observable sends performed by one `relay_message` call, in program order. -/
inductive SendEvent
  | headerSent (ok : Bool)
  | bodySent (ok : Bool)
  | attachmentsSent
  | attachmentFallbackEmbed
  | attachmentErrorLogged
deriving DecidableEq

/-- The `relay_message` coroutine (lines 229-272): emit a header when
`headerRequired` holds (resetting the tracker first), send the body iff
`msg.clean_content` is non-empty (the URL code-block wrapping of lines
242-246 rewrites the content string but cannot empty a non-empty string and
does not affect control flow, so it is not tracked), then forward
attachments with the two error downgrades, and finally increment
`message_count`.  Returns the new tracker and the send trace. -/
def relay_message (limit : Nat) (env : RelayEnv) (h : MessageHistory) (m : Msg) :
    MessageHistory × List SendEvent :=
  let headerEvents :=
    if headerRequired limit h m then [SendEvent.headerSent env.header_send_ok] else []
  let bodyEvents :=
    if m.clean_content ≠ "" then [SendEvent.bodySent env.body_send_ok] else []
  let attachEvents :=
    if m.has_attachments then
      match env.attach with
      | AttachOutcome.ok => [SendEvent.attachmentsSent]
      | AttachOutcome.forbiddenOrNotFound => [SendEvent.attachmentFallbackEmbed]
      | AttachOutcome.httpError => [SendEvent.attachmentErrorLogged]
    else []
  (relayHistStep limit h m, headerEvents ++ bodyEvents ++ attachEvents)

/-- Relays a list of messages in order, returning for each whether a header
was emitted before it. -/
def relayHeaderFlags (limit : Nat) : MessageHistory → List Msg → List Bool
  | _, [] => []
  | h, m :: ms => headerRequired limit h m :: relayHeaderFlags limit (relayHistStep limit h m) ms

/-! ### Watched-user cache (`fetch_user_cache`, lines 155-173) -/

/-- The value stored in `watched_users[user_id]`: the API entry with its
`user` key popped, leaving `actor`, `reason`, `inserted_at`. -/
structure WatchEntry where
  actor : Nat
  reason : String
  inserted_at : String
deriving DecidableEq

/-- One element of the list returned by
`bot.api_client.get(api_endpoint, params=api_default_params)`. -/
structure ApiEntry where
  user : Nat
  actor : Nat
  reason : String
  inserted_at : String
deriving DecidableEq

/-- The watched-user cache `self.watched_users`: a dict keyed by user id, in
insertion order. -/
abbrev UserCache := List (Nat × WatchEntry)

/-- Dict lookup `watched_users[user_id]` / membership `user_id in watched_users`. -/
def lookupCache : UserCache → Nat → Option WatchEntry
  | [], _ => none
  | (u', w) :: rest, u => if u' = u then some w else lookupCache rest u

/-- Dict assignment `watched_users[user_id] = entry`: overwrite the existing
key in place, or append a new key at the end. -/
def cacheInsert : UserCache → Nat → WatchEntry → UserCache
  | [], u, w => [(u, w)]
  | (u', w') :: rest, u, w =>
    if u' = u then (u, w) :: rest else (u', w') :: cacheInsert rest u w

/-- The `entry.pop('user')` step of line 170: the fields that remain in the
entry once the user id has been removed. -/
def entryData (e : ApiEntry) : WatchEntry :=
  { actor := e.actor, reason := e.reason, inserted_at := e.inserted_at }

/-- Lines 167-171: `self.watched_users = defaultdict(dict)` followed by the
insertion loop — the new cache is built from scratch from the API data. -/
def buildCache (data : List ApiEntry) : UserCache :=
  data.foldl (fun c e => cacheInsert c e.user (entryData e)) []

/-- The `fetch_user_cache` coroutine (lines 155-173).  The API call result is
embedded as `Option (List ApiEntry)`: `none` means the call raised
`aiohttp.ClientResponseError`, in which case the function logs and returns
`False` before touching `self.watched_users`; otherwise the cache is rebuilt
wholesale and the function returns `True`. -/
def fetch_user_cache (api : Option (List ApiEntry)) (old : UserCache) : Bool × UserCache :=
  match api with
  | none => (false, old)
  | some data => (true, buildCache data)

/-! ### Startup (`start_watchchannel`, lines 100-153) -/

/-- From `__init__` (line 70): `self.retries = 5`. -/
def retries : Nat := 5

/-- From `__init__` (line 71): `self.retry_delay = 10` (seconds). -/
def retry_delay : Nat := 10

/-- The channel-resolution loop of lines 105-113, run over the list of
attempt numbers `[1, ..., retries]`.  `avail a` is the truth of
`bot.get_channel(destination) is not None` on the `a`-th call.  Returns
whether a channel was obtained together with the list of sleep durations
performed (a `retry_delay` sleep happens only on a failed attempt that is
not the last one). -/
def resolveChannel (avail : Nat → Bool) : List Nat → Bool × List Nat
  | [] => (false, [])
  | a :: rest =>
    if avail a then (true, [])
    else if rest.isEmpty then (false, [])
    else
      let r := resolveChannel avail rest
      (r.1, retry_delay :: r.2)

/-- The external world as seen by `start_watchchannel`: channel availability
per attempt, whether `get_webhook_info` succeeds (its `HTTPException` /
`NotFound` / `Forbidden` failures are all caught at line 118), and the API
result for the initial cache refresh. -/
structure StartEnv where
  channel_available : Nat → Bool
  webhook_ok : Bool
  api : Option (List ApiEntry)

/-- Observable outcome of `start_watchchannel`. -/
structure StartResult where
  sleeps : List Nat
  channel_found : Bool
  webhook_found : Bool
  fatal_alert : Bool
  cog_removed : Bool
  refresh_attempted : Bool
  refresh_ok : Bool
  warn_alert : Bool
  cache : UserCache
deriving DecidableEq

/-- The `start_watchchannel` coroutine (lines 100-153): resolve the channel
with `retries` bounded attempts, fetch the webhook once; if either is still
unresolved, send the fatal mod-log alert and `remove_cog` without touching
the cache; otherwise run the initial `fetch_user_cache`, sending the
(non-fatal) warning alert when it fails. -/
def start_watchchannel (env : StartEnv) (old : UserCache) : StartResult :=
  let rc := resolveChannel env.channel_available (List.range' 1 retries)
  if rc.1 = false ∨ env.webhook_ok = false then
    { sleeps := rc.2, channel_found := rc.1, webhook_found := env.webhook_ok,
      fatal_alert := true, cog_removed := true,
      refresh_attempted := false, refresh_ok := false, warn_alert := false,
      cache := old }
  else
    let fr := fetch_user_cache env.api old
    { sleeps := rc.2, channel_found := rc.1, webhook_found := env.webhook_ok,
      fatal_alert := false, cog_removed := false,
      refresh_attempted := true, refresh_ok := fr.1, warn_alert := !fr.1,
      cache := fr.2 }

/-! ### The message queue and the consumption snapshot

`self.message_queue = defaultdict(lambda: defaultdict(deque))` (line 68) and
`self.consumption_queue = {}` (line 69): a dict keyed by user id whose values
are dicts keyed by channel id whose values are deques of messages.  Both
levels iterate in key-insertion order.  Deques are `List Msg` with `append`
at the tail and `popleft` at the head. -/

/-- The inner dict `channel_id -> deque of messages`. -/
abbrev ChanQueues := List (Nat × List Msg)

/-- The outer dict `user_id -> (channel_id -> deque of messages)`. -/
abbrev UserQueues := List (Nat × ChanQueues)

/-- Lookup of a channel key in the inner dict; a missing key reads as the
empty deque (the `defaultdict` default). -/
def lookupC (c : Nat) : ChanQueues → List Msg
  | [] => []
  | (c', ms) :: rest => if c' = c then ms else lookupC c rest

/-- The deque at `q[u][c]`; missing keys read as the empty deque. -/
def lookup2 : UserQueues → Nat → Nat → List Msg
  | [], _, _ => []
  | (u', cq) :: rest, u, c => if u' = u then lookupC c cq else lookup2 rest u c

/-- Appending to `inner[c]` under `defaultdict(deque)` semantics: an existing
key is updated in place, a fresh key is inserted at the end (dict insertion
order). -/
def enqueueChan : ChanQueues → Nat → Msg → ChanQueues
  | [], c, m => [(c, [m])]
  | (c', ms) :: rest, c, m =>
    if c' = c then (c', ms ++ [m]) :: rest else (c', ms) :: enqueueChan rest c m

/-- Line 182: `self.message_queue[msg.author.id][msg.channel.id].append(msg)`
under `defaultdict(lambda: defaultdict(deque))` semantics. -/
def enqueue : UserQueues → Nat → Nat → Msg → UserQueues
  | [], u, c, m => [(u, [(c, [m])])]
  | (u', cq) :: rest, u, c, m =>
    if u' = u then (u', enqueueChan cq c m) :: rest else (u', cq) :: enqueue rest u c m

/-- The resume point of the drain loop (lines 197-203) inside one inner dict:
the first channel key (in iteration order) whose deque is non-empty, its
front message popped.  Channel keys already fully drained keep their (empty)
deques — `popleft` never removes a dict key. -/
def popFirstChan : ChanQueues → Option (Nat × Msg × ChanQueues)
  | [] => none
  | (c, ms) :: rest =>
    match ms with
    | m :: tl => some (c, m, (c, tl) :: rest)
    | [] =>
      match popFirstChan rest with
      | some (c', m, rest') => some (c', m, (c, []) :: rest')
      | none => none

/-- The resume point of the drain loop over the whole snapshot: the first
(user, channel) pair in iteration order with a pending message, that
message popped from the front of its deque.  Because nothing ever appends
to a snapshot deque (new arrivals go to the freshly cleared live queue,
whose `defaultdict` re-creates inner objects), the loop of lines 197-203 is
always positioned at exactly this first non-empty deque. -/
def popFirst : UserQueues → Option (Nat × Nat × Msg × UserQueues)
  | [] => none
  | (u, cq) :: rest =>
    match popFirstChan cq with
    | some (c, m, cq') => some (u, c, m, (u, cq') :: rest)
    | none =>
      match popFirst rest with
      | some (u', c, m, rest') => some (u', c, m, (u, cq) :: rest')
      | none => none

/-- Dict key removal `d.pop(u, None)` on the outer queue dict. -/
def dictPopU : UserQueues → Nat → UserQueues
  | [], _ => []
  | (u', cq) :: rest, u => if u' = u then rest else (u', cq) :: dictPopU rest u

/-- Dict key removal `d.pop(u, None)` on the watched-user cache. -/
def cachePop : UserCache → Nat → UserCache
  | [], _ => []
  | (u', w) :: rest, u => if u' = u then rest else (u', w) :: cachePop rest u

/-! ### The consumption task handle and `consuming_messages` -/

/-- The state of the `self._consume_task` handle together with the program
position of the running coroutine.  `noTask` is the `None` of line 66;
`sleeping` is a created task that has not yet executed the snapshot block of
lines 193-195 (it is at the initial `asyncio.sleep`, or merely scheduled);
`draining` is a task past that block, inside the drain loop;
`doneOk` / `doneExc` / `cancelled` are the three ways an asyncio task can be
done: returned, raised an unhandled exception, or was cancelled. -/
inductive TaskState
  | noTask
  | sleeping
  | draining
  | doneOk
  | doneExc
  | cancelled
deriving DecidableEq

/-- Result of evaluating the `consuming_messages` property (lines 83-98).
`result active logged` is a normal return of `active`, with `logged` true
when the property logged a previous unhandled failure on the way
(`task.exception()` returned a non-`None` exception).  `raisedCancelled`
records the asyncio fact that `Task.exception()` on a *cancelled* task does
not return: it raises `CancelledError`, which `consuming_messages` does not
catch. -/
inductive CheckResult
  | result (active : Bool) (logged : Bool)
  | raisedCancelled
deriving DecidableEq

/-- The `consuming_messages` property (lines 83-98): `None` handle reports
inactive; a not-yet-done task reports active; a done task reports inactive
after logging its exception if it had one; a cancelled task makes
`self._consume_task.exception()` raise `CancelledError`. -/
def consuming_messages : TaskState → CheckResult
  | TaskState.noTask => CheckResult.result false false
  | TaskState.sleeping => CheckResult.result true false
  | TaskState.draining => CheckResult.result true false
  | TaskState.doneOk => CheckResult.result false false
  | TaskState.doneExc => CheckResult.result false true
  | TaskState.cancelled => CheckResult.raisedCancelled

/-! ### The system state and its cooperative small-step semantics -/

/-- The mutable state of one `WatchChannel` instance: the fields of
`__init__` (lines 66-74) that the relay pipeline touches, plus the trace
`relayed` of messages passed to `relay_message`, in order. -/
structure SysState where
  watched_users : UserCache
  message_queue : UserQueues
  consumption_queue : UserQueues
  relayed : List Msg
  message_history : MessageHistory
  task : TaskState
deriving DecidableEq

/-- The state right after a successful startup with cache `W`: queues and
relay trace empty, default `MessageHistory`, no consume task yet
(`self._consume_task = None`). -/
def initState (W : UserCache) : SysState :=
  { watched_users := W, message_queue := [], consumption_queue := [],
    relayed := [], message_history := {}, task := TaskState.noTask }

/-- The atomic scheduler events of the cooperative asyncio model.  Each event
is one maximal code segment between suspension points:

* `arrive m` — the whole `on_message` handler (lines 175-182; it contains no
  `await`, so it is atomic);
* `wake` — the running consume task passes its initial suspension and
  executes the snapshot block of lines 192-195 atomically, entering the
  drain loop;
* `drainStep` — one iteration of the drain loop: `popleft` the next pending
  snapshot message and `await relay_message` on it (lines 199-203);
* `finishTask` — the loop is exhausted: clear the snapshot and either
  respawn (`delay_consumption=False`) when the live queue refilled, or
  return (lines 205-211);
* `fail` — the task dies with an unhandled exception at a suspension point;
* `cancel` — the task is cancelled at a suspension point. -/
inductive Event
  | arrive (m : Msg)
  | wake
  | drainStep
  | finishTask
  | fail
  | cancel
deriving DecidableEq

/-- One atomic step of the system.  Events that are not enabled in the
current state (for example `wake` when no task is at its initial
suspension) leave the state unchanged, so arbitrary event lists denote
arbitrary fair or unfair schedules. -/
def stepFn (limit : Nat) (s : SysState) : Event → SysState
  | Event.arrive m =>
    -- lines 175-182: membership test, activity check + spawn, append.
    -- The spawn precedes the append in the source, but the created task
    -- cannot run before the handler yields, so the atomic block is the
    -- same either way.
    if (lookupCache s.watched_users m.author).isSome then
      match consuming_messages s.task with
      | CheckResult.raisedCancelled => s
        -- `Task.exception()` raised `CancelledError` out of `on_message`:
        -- neither the spawn nor the append happens.
      | CheckResult.result true _ =>
        { s with message_queue := enqueue s.message_queue m.author m.channel m }
      | CheckResult.result false _ =>
        { s with task := TaskState.sleeping,
                 message_queue := enqueue s.message_queue m.author m.channel m }
    else s
  | Event.wake =>
    if s.task = TaskState.sleeping then
      -- lines 192-195: `if not self.consumption_queue:` tests dict key
      -- emptiness; the `copy()`/`clear()` pair transfers the queue contents
      -- wholesale (the shallow copy aliases inner containers, but the
      -- cleared outer dict re-creates fresh inner containers on the next
      -- defaultdict access, so no aliasing is observable).
      if s.consumption_queue.isEmpty then
        { s with task := TaskState.draining,
                 consumption_queue := s.message_queue, message_queue := [] }
      else
        { s with task := TaskState.draining }
    else s
  | Event.drainStep =>
    if s.task = TaskState.draining then
      match popFirst s.consumption_queue with
      | some (_, _, m, q') =>
        { s with consumption_queue := q',
                 relayed := s.relayed ++ [m],
                 message_history := relayHistStep limit s.message_history m }
      | none => s
    else s
  | Event.finishTask =>
    if s.task = TaskState.draining then
      match popFirst s.consumption_queue with
      | none =>
        -- lines 205-211: `self.consumption_queue.clear()`, then respawn
        -- without delay iff the live queue is (key-)non-empty.
        { s with consumption_queue := [],
                 task := if s.message_queue.isEmpty then TaskState.doneOk
                         else TaskState.sleeping }
      | some _ => s
    else s
  | Event.fail =>
    if s.task = TaskState.sleeping ∨ s.task = TaskState.draining then
      { s with task := TaskState.doneExc }
    else s
  | Event.cancel =>
    if s.task = TaskState.sleeping ∨ s.task = TaskState.draining then
      { s with task := TaskState.cancelled }
    else s

/-- Run a schedule of events from a state. -/
def run (limit : Nat) (s : SysState) (events : List Event) : SysState :=
  events.foldl (stepFn limit) s

/-- The `_remove_user` method (lines 336-340): pop the user's key from the
cache, the live queue and the snapshot.  It is plain dict manipulation — in
particular it performs no API fetch. -/
def removeUser (s : SysState) (u : Nat) : SysState :=
  { s with watched_users := cachePop s.watched_users u,
           message_queue := dictPopU s.message_queue u,
           consumption_queue := dictPopU s.consumption_queue u }

/-! ### `cog_unload` (lines 342-353) -/

/-- Python exceptions that can escape `cog_unload`. -/
inductive PyError
  | attributeError
  | invalidStateError
deriving DecidableEq

/-- The `cog_unload` method (lines 342-353).  Its first action is
`self._consume_task.done()`: when the handle is still the `None` of line 66
(no consume task was ever created), that attribute access raises
`AttributeError`.  When a task exists and is not done, `cancel()` only
*requests* cancellation, and the immediately following `result()` call on
the still-pending task raises `asyncio.InvalidStateError` (which the
`except asyncio.CancelledError` clause does not catch).  When the task is
already done, the method returns normally without cancelling anything. -/
def cog_unload : TaskState → Except PyError Unit
  | TaskState.noTask => Except.error PyError.attributeError
  | TaskState.sleeping => Except.error PyError.invalidStateError
  | TaskState.draining => Except.error PyError.invalidStateError
  | TaskState.doneOk => Except.ok ()
  | TaskState.doneExc => Except.ok ()
  | TaskState.cancelled => Except.ok ()

/-! ### Dictionary lemmas -/

theorem lookupC_enqueueChan_self (cq : ChanQueues) (c : Nat) (m : Msg) :
    lookupC c (enqueueChan cq c m) = lookupC c cq ++ [m] := by
  induction cq with
  | nil => simp [enqueueChan, lookupC]
  | cons p rest ih =>
    obtain ⟨c', ms⟩ := p
    by_cases hc : c' = c
    · subst hc; simp [enqueueChan, lookupC]
    · simp [enqueueChan, lookupC, hc, ih]

theorem lookupC_enqueueChan_other (cq : ChanQueues) (c c' : Nat) (m : Msg) (h : c' ≠ c) :
    lookupC c' (enqueueChan cq c m) = lookupC c' cq := by
  induction cq with
  | nil => simp [enqueueChan, lookupC, Ne.symm h]
  | cons p rest ih =>
    obtain ⟨c₀, ms⟩ := p
    by_cases hc : c₀ = c
    · subst hc; simp [enqueueChan, lookupC, Ne.symm h]
    · by_cases hc' : c₀ = c'
      · subst hc'; simp [enqueueChan, lookupC, hc]
      · simp [enqueueChan, lookupC, hc, hc', ih]

theorem lookup2_enqueue_self (q : UserQueues) (u c : Nat) (m : Msg) :
    lookup2 (enqueue q u c m) u c = lookup2 q u c ++ [m] := by
  induction q with
  | nil => simp [enqueue, lookup2, lookupC_enqueueChan_self, lookupC]
  | cons p rest ih =>
    obtain ⟨u₀, cq⟩ := p
    by_cases hu : u₀ = u
    · subst hu; simp [enqueue, lookup2, lookupC_enqueueChan_self]
    · simp [enqueue, lookup2, hu, ih]

theorem lookup2_enqueue_other (q : UserQueues) (u c u' c' : Nat) (m : Msg)
    (h : ¬(u' = u ∧ c' = c)) :
    lookup2 (enqueue q u c m) u' c' = lookup2 q u' c' := by
  induction q with
  | nil =>
    by_cases hu : u = u'
    · subst hu
      have hc : c' ≠ c := fun hc => h ⟨rfl, hc⟩
      simp [enqueue, lookup2, lookupC, Ne.symm hc]
    · simp [enqueue, lookup2, hu]
  | cons p rest ih =>
    obtain ⟨u₀, cq⟩ := p
    by_cases hu : u₀ = u
    · subst hu
      by_cases hu' : u₀ = u'
      · subst hu'
        have hc : c' ≠ c := fun hc => h ⟨rfl, hc⟩
        simp [enqueue, lookup2, lookupC_enqueueChan_other cq c c' m hc]
      · simp [enqueue, lookup2, hu']
    · by_cases hu' : u₀ = u'
      · subst hu'; simp [enqueue, lookup2, hu]
      · simp [enqueue, lookup2, hu, hu', ih]

theorem popFirstChan_none (cq : ChanQueues) :
    popFirstChan cq = none → ∀ c, lookupC c cq = [] := by
  induction cq with
  | nil => intro _ c; simp [lookupC]
  | cons p rest ih =>
    obtain ⟨c₀, ms⟩ := p
    intro h c
    cases ms with
    | cons m tl => simp [popFirstChan] at h
    | nil =>
      cases hr : popFirstChan rest with
      | some v => obtain ⟨c', m, rest'⟩ := v; simp [popFirstChan, hr] at h
      | none =>
        by_cases hc : c₀ = c
        · subst hc; simp [lookupC]
        · simp [lookupC, hc, ih hr c]

theorem popFirstChan_mem_keys (cq : ChanQueues) (c : Nat) (m : Msg) (cq' : ChanQueues) :
    popFirstChan cq = some (c, m, cq') → c ∈ cq.map Prod.fst := by
  induction cq generalizing c m cq' with
  | nil => intro h; simp [popFirstChan] at h
  | cons p rest ih =>
    obtain ⟨c₀, ms⟩ := p
    intro h
    cases ms with
    | cons m₀ tl =>
      simp only [popFirstChan, Option.some.injEq, Prod.mk.injEq] at h
      obtain ⟨rfl, rfl, rfl⟩ := h
      simp
    | nil =>
      cases hr : popFirstChan rest with
      | some v =>
        obtain ⟨c', m', rest'⟩ := v
        simp only [popFirstChan, hr, Option.some.injEq, Prod.mk.injEq] at h
        obtain ⟨rfl, rfl, rfl⟩ := h
        have := ih c' m' rest' hr
        simp only [List.map_cons]
        exact List.mem_cons_of_mem _ this
      | none => simp [popFirstChan, hr] at h

theorem popFirstChan_keys (cq : ChanQueues) (c : Nat) (m : Msg) (cq' : ChanQueues) :
    popFirstChan cq = some (c, m, cq') → cq'.map Prod.fst = cq.map Prod.fst := by
  induction cq generalizing c m cq' with
  | nil => intro h; simp [popFirstChan] at h
  | cons p rest ih =>
    obtain ⟨c₀, ms⟩ := p
    intro h
    cases ms with
    | cons m₀ tl =>
      simp only [popFirstChan, Option.some.injEq, Prod.mk.injEq] at h
      obtain ⟨rfl, rfl, rfl⟩ := h
      simp
    | nil =>
      cases hr : popFirstChan rest with
      | some v =>
        obtain ⟨c', m', rest'⟩ := v
        simp only [popFirstChan, hr, Option.some.injEq, Prod.mk.injEq] at h
        obtain ⟨rfl, rfl, rfl⟩ := h
        simp [ih c' m' rest' hr]
      | none => simp [popFirstChan, hr] at h

theorem popFirstChan_self (cq : ChanQueues) (c : Nat) (m : Msg) (cq' : ChanQueues)
    (hnd : (cq.map Prod.fst).Nodup) :
    popFirstChan cq = some (c, m, cq') → lookupC c cq = m :: lookupC c cq' := by
  induction cq generalizing c m cq' with
  | nil => intro h; simp [popFirstChan] at h
  | cons p rest ih =>
    obtain ⟨c₀, ms⟩ := p
    rw [List.map_cons] at hnd
    obtain ⟨hc₀, hndr⟩ := List.nodup_cons.mp hnd
    intro h
    cases ms with
    | cons m₀ tl =>
      simp only [popFirstChan, Option.some.injEq, Prod.mk.injEq] at h
      obtain ⟨rfl, rfl, rfl⟩ := h
      simp [lookupC]
    | nil =>
      cases hr : popFirstChan rest with
      | some v =>
        obtain ⟨c', m', rest'⟩ := v
        simp only [popFirstChan, hr, Option.some.injEq, Prod.mk.injEq] at h
        obtain ⟨rfl, rfl, rfl⟩ := h
        have hmem : c' ∈ rest.map Prod.fst := popFirstChan_mem_keys rest c' m' rest' hr
        have hne : c₀ ≠ c' := fun hcontra => hc₀ (hcontra ▸ hmem)
        simp [lookupC, hne, ih c' m' rest' hndr hr]
      | none => simp [popFirstChan, hr] at h

theorem popFirstChan_other (cq : ChanQueues) (c : Nat) (m : Msg) (cq' : ChanQueues) :
    popFirstChan cq = some (c, m, cq') → ∀ c', c' ≠ c → lookupC c' cq' = lookupC c' cq := by
  induction cq generalizing c m cq' with
  | nil => intro h; simp [popFirstChan] at h
  | cons p rest ih =>
    obtain ⟨c₀, ms⟩ := p
    intro h c' hne
    cases ms with
    | cons m₀ tl =>
      simp only [popFirstChan, Option.some.injEq, Prod.mk.injEq] at h
      obtain ⟨rfl, rfl, rfl⟩ := h
      simp [lookupC, Ne.symm hne]
    | nil =>
      cases hr : popFirstChan rest with
      | some v =>
        obtain ⟨c₁, m', rest'⟩ := v
        simp only [popFirstChan, hr, Option.some.injEq, Prod.mk.injEq] at h
        obtain ⟨rfl, rfl, rfl⟩ := h
        by_cases hc0 : c₀ = c'
        · subst hc0; simp [lookupC]
        · simp [lookupC, hc0, ih c₁ m' rest' hr c' hne]
      | none => simp [popFirstChan, hr] at h

/-- Key discipline of the two-level queue dicts: keys are unique at both
levels.  Every state reachable through `enqueue` / snapshot swap / `popFirst`
has this property (Python dicts cannot hold duplicate keys; the association
lists merely make it explicit). -/
def goodKeys (q : UserQueues) : Prop :=
  (q.map Prod.fst).Nodup ∧ ∀ p ∈ q, (p.2.map Prod.fst).Nodup

theorem popFirst_none (q : UserQueues) :
    popFirst q = none → ∀ u c, lookup2 q u c = [] := by
  induction q with
  | nil => intro _ u c; simp [lookup2]
  | cons p rest ih =>
    obtain ⟨u₀, cq⟩ := p
    intro h u c
    cases hc : popFirstChan cq with
    | some v => obtain ⟨c', m, cq'⟩ := v; simp [popFirst, hc] at h
    | none =>
      cases hr : popFirst rest with
      | some v => obtain ⟨u', c', m, rest'⟩ := v; simp [popFirst, hc, hr] at h
      | none =>
        by_cases hu : u₀ = u
        · subst hu; simp [lookup2, popFirstChan_none cq hc c]
        · simp [lookup2, hu, ih hr u c]

theorem popFirst_mem_keys (q : UserQueues) (u c : Nat) (m : Msg) (q' : UserQueues) :
    popFirst q = some (u, c, m, q') → u ∈ q.map Prod.fst := by
  induction q generalizing u c m q' with
  | nil => intro h; simp [popFirst] at h
  | cons p rest ih =>
    obtain ⟨u₀, cq⟩ := p
    intro h
    cases hc : popFirstChan cq with
    | some v =>
      obtain ⟨c', m', cq'⟩ := v
      simp only [popFirst, hc, Option.some.injEq, Prod.mk.injEq] at h
      obtain ⟨rfl, rfl, rfl, rfl⟩ := h
      simp
    | none =>
      cases hr : popFirst rest with
      | some v =>
        obtain ⟨u', c', m', rest'⟩ := v
        simp only [popFirst, hc, hr, Option.some.injEq, Prod.mk.injEq] at h
        obtain ⟨rfl, rfl, rfl, rfl⟩ := h
        have := ih u' c' m' rest' hr
        simp only [List.map_cons]
        exact List.mem_cons_of_mem _ this
      | none => simp [popFirst, hc, hr] at h

theorem popFirst_keys (q : UserQueues) (u c : Nat) (m : Msg) (q' : UserQueues) :
    popFirst q = some (u, c, m, q') → q'.map Prod.fst = q.map Prod.fst := by
  induction q generalizing u c m q' with
  | nil => intro h; simp [popFirst] at h
  | cons p rest ih =>
    obtain ⟨u₀, cq⟩ := p
    intro h
    cases hc : popFirstChan cq with
    | some v =>
      obtain ⟨c', m', cq'⟩ := v
      simp only [popFirst, hc, Option.some.injEq, Prod.mk.injEq] at h
      obtain ⟨rfl, rfl, rfl, rfl⟩ := h
      simp
    | none =>
      cases hr : popFirst rest with
      | some v =>
        obtain ⟨u', c', m', rest'⟩ := v
        simp only [popFirst, hc, hr, Option.some.injEq, Prod.mk.injEq] at h
        obtain ⟨rfl, rfl, rfl, rfl⟩ := h
        simp [ih u' c' m' rest' hr]
      | none => simp [popFirst, hc, hr] at h

theorem popFirst_self (q : UserQueues) (u c : Nat) (m : Msg) (q' : UserQueues)
    (hgk : goodKeys q) :
    popFirst q = some (u, c, m, q') → lookup2 q u c = m :: lookup2 q' u c := by
  induction q generalizing u c m q' with
  | nil => intro h; simp [popFirst] at h
  | cons p rest ih =>
    obtain ⟨u₀, cq⟩ := p
    obtain ⟨hnd, hinner⟩ := hgk
    rw [List.map_cons] at hnd
    obtain ⟨hu₀, hndr⟩ := List.nodup_cons.mp hnd
    intro h
    cases hc : popFirstChan cq with
    | some v =>
      obtain ⟨c', m', cq'⟩ := v
      simp only [popFirst, hc, Option.some.injEq, Prod.mk.injEq] at h
      obtain ⟨rfl, rfl, rfl, rfl⟩ := h
      have hcq : (cq.map Prod.fst).Nodup := hinner (u₀, cq) (by simp)
      simp [lookup2, popFirstChan_self cq c' m' cq' hcq hc]
    | none =>
      cases hr : popFirst rest with
      | some v =>
        obtain ⟨u', c', m', rest'⟩ := v
        simp only [popFirst, hc, hr, Option.some.injEq, Prod.mk.injEq] at h
        obtain ⟨rfl, rfl, rfl, rfl⟩ := h
        have hmem : u' ∈ rest.map Prod.fst := popFirst_mem_keys rest u' c' m' rest' hr
        have hne : u₀ ≠ u' := fun hcontra => hu₀ (hcontra ▸ hmem)
        have hgkr : goodKeys rest := ⟨hndr, fun p hp => hinner p (List.mem_cons_of_mem _ hp)⟩
        simp [lookup2, hne, ih u' c' m' rest' hgkr hr]
      | none => simp [popFirst, hc, hr] at h

theorem popFirst_other (q : UserQueues) (u c : Nat) (m : Msg) (q' : UserQueues) :
    popFirst q = some (u, c, m, q') →
    ∀ u' c', ¬(u' = u ∧ c' = c) → lookup2 q' u' c' = lookup2 q u' c' := by
  induction q generalizing u c m q' with
  | nil => intro h; simp [popFirst] at h
  | cons p rest ih =>
    obtain ⟨u₀, cq⟩ := p
    intro h u' c' hne
    cases hc : popFirstChan cq with
    | some v =>
      obtain ⟨c₁, m', cq'⟩ := v
      simp only [popFirst, hc, Option.some.injEq, Prod.mk.injEq] at h
      obtain ⟨rfl, rfl, rfl, rfl⟩ := h
      by_cases hu : u₀ = u'
      · subst hu
        have hcne : c' ≠ c₁ := fun hcc => hne ⟨rfl, hcc⟩
        simp [lookup2, popFirstChan_other cq c₁ m' cq' hc c' hcne]
      · simp [lookup2, hu]
    | none =>
      cases hr : popFirst rest with
      | some v =>
        obtain ⟨u₁, c₁, m', rest'⟩ := v
        simp only [popFirst, hc, hr, Option.some.injEq, Prod.mk.injEq] at h
        obtain ⟨rfl, rfl, rfl, rfl⟩ := h
        by_cases hu : u₀ = u'
        · subst hu; simp [lookup2]
        · simp [lookup2, hu, ih u₁ c₁ m' rest' hr u' c' hne]
      | none => simp [popFirst, hc, hr] at h

theorem goodKeys_popFirst (q : UserQueues) (u c : Nat) (m : Msg) (q' : UserQueues)
    (hgk : goodKeys q) :
    popFirst q = some (u, c, m, q') → goodKeys q' := by
  induction q generalizing u c m q' with
  | nil => intro h; simp [popFirst] at h
  | cons p rest ih =>
    obtain ⟨u₀, cq⟩ := p
    obtain ⟨hnd, hinner⟩ := hgk
    rw [List.map_cons] at hnd
    obtain ⟨hu₀, hndr⟩ := List.nodup_cons.mp hnd
    intro h
    cases hc : popFirstChan cq with
    | some v =>
      obtain ⟨c₁, m', cq'⟩ := v
      simp only [popFirst, hc, Option.some.injEq, Prod.mk.injEq] at h
      obtain ⟨rfl, rfl, rfl, rfl⟩ := h
      constructor
      · simpa using (List.nodup_cons.mpr ⟨hu₀, hndr⟩)
      · intro p hp
        rcases List.mem_cons.mp hp with hhd | htl
        · subst hhd
          have hcq : (cq.map Prod.fst).Nodup := hinner (u₀, cq) (by simp)
          simpa [popFirstChan_keys cq c₁ m' cq' hc] using hcq
        · exact hinner p (List.mem_cons_of_mem _ htl)
    | none =>
      cases hr : popFirst rest with
      | some v =>
        obtain ⟨u₁, c₁, m', rest'⟩ := v
        simp only [popFirst, hc, hr, Option.some.injEq, Prod.mk.injEq] at h
        obtain ⟨rfl, rfl, rfl, rfl⟩ := h
        have hgkr : goodKeys rest := ⟨hndr, fun p hp => hinner p (List.mem_cons_of_mem _ hp)⟩
        obtain ⟨hnd', hinner'⟩ := ih u₁ c₁ m' rest' hgkr hr
        constructor
        · rw [List.map_cons, List.nodup_cons]
          refine ⟨?_, hnd'⟩
          simpa [popFirst_keys rest u₁ c₁ m' rest' hr] using hu₀
        · intro p hp
          rcases List.mem_cons.mp hp with hhd | htl
          · subst hhd; exact hinner (u₀, cq) (by simp)
          · exact hinner' p htl
      | none => simp [popFirst, hc, hr] at h

theorem mem_keys_enqueueChan (cq : ChanQueues) (c x : Nat) (m : Msg) :
    x ∈ (enqueueChan cq c m).map Prod.fst ↔ x ∈ cq.map Prod.fst ∨ x = c := by
  induction cq with
  | nil => simp [enqueueChan, eq_comm]
  | cons p rest ih =>
    obtain ⟨c₀, ms⟩ := p
    by_cases hc : c₀ = c
    · subst hc
      simp [enqueueChan]
      tauto
    · simp only [enqueueChan, if_neg hc, List.map_cons, List.mem_cons, ih]
      tauto

theorem nodup_keys_enqueueChan (cq : ChanQueues) (c : Nat) (m : Msg)
    (h : (cq.map Prod.fst).Nodup) : ((enqueueChan cq c m).map Prod.fst).Nodup := by
  induction cq with
  | nil => simp [enqueueChan]
  | cons p rest ih =>
    obtain ⟨c₀, ms⟩ := p
    rw [List.map_cons] at h
    obtain ⟨hc₀, hrest⟩ := List.nodup_cons.mp h
    by_cases hc : c₀ = c
    · subst hc
      simp only [enqueueChan, if_pos rfl, List.map_cons]
      exact List.nodup_cons.mpr ⟨hc₀, hrest⟩
    · simp only [enqueueChan, if_neg hc, List.map_cons]
      refine List.nodup_cons.mpr ⟨?_, ih hrest⟩
      rw [mem_keys_enqueueChan]
      rintro (hmem | rfl)
      · exact hc₀ hmem
      · exact hc rfl

theorem mem_keys_enqueue (q : UserQueues) (u c x : Nat) (m : Msg) :
    x ∈ (enqueue q u c m).map Prod.fst ↔ x ∈ q.map Prod.fst ∨ x = u := by
  induction q with
  | nil => simp [enqueue, eq_comm]
  | cons p rest ih =>
    obtain ⟨u₀, cq⟩ := p
    by_cases hu : u₀ = u
    · subst hu
      simp [enqueue]
      tauto
    · simp only [enqueue, if_neg hu, List.map_cons, List.mem_cons, ih]
      tauto

theorem goodKeys_enqueue (q : UserQueues) (u c : Nat) (m : Msg)
    (hgk : goodKeys q) : goodKeys (enqueue q u c m) := by
  induction q with
  | nil =>
    refine ⟨by simp [enqueue], ?_⟩
    intro p hp
    simp only [enqueue, List.mem_singleton] at hp
    subst hp
    simp
  | cons p rest ih =>
    obtain ⟨u₀, cq⟩ := p
    obtain ⟨hnd, hinner⟩ := hgk
    rw [List.map_cons] at hnd
    obtain ⟨hu₀, hndr⟩ := List.nodup_cons.mp hnd
    by_cases hu : u₀ = u
    · subst hu
      refine ⟨?_, ?_⟩
      · simp only [enqueue, if_pos rfl, List.map_cons]
        exact List.nodup_cons.mpr ⟨hu₀, hndr⟩
      · intro p hp
        simp only [enqueue, if_pos rfl] at hp
        rcases List.mem_cons.mp hp with hhd | htl
        · subst hhd
          exact nodup_keys_enqueueChan cq c m (hinner (u₀, cq) (by simp))
        · exact hinner p (List.mem_cons_of_mem _ htl)
    · have hgkr : goodKeys rest := ⟨hndr, fun p hp => hinner p (List.mem_cons_of_mem _ hp)⟩
      obtain ⟨hnd', hinner'⟩ := ih hgkr
      refine ⟨?_, ?_⟩
      · simp only [enqueue, if_neg hu, List.map_cons]
        refine List.nodup_cons.mpr ⟨?_, hnd'⟩
        rw [mem_keys_enqueue]
        rintro (hmem | rfl)
        · exact hu₀ hmem
        · exact hu rfl
      · intro p hp
        simp only [enqueue, if_neg hu] at hp
        rcases List.mem_cons.mp hp with hhd | htl
        · subst hhd; exact hinner (u₀, cq) (by simp)
        · exact hinner' p htl

/-- Placement discipline: `on_message` files every message under its own
(author id, channel id) pair, so each deque only holds messages of its own
pair. -/
def wellPlaced (q : UserQueues) : Prop :=
  ∀ u c m, m ∈ lookup2 q u c → m.author = u ∧ m.channel = c

theorem wellPlaced_nil : wellPlaced [] := by
  intro u c m hmem
  simp [lookup2] at hmem

theorem wellPlaced_enqueue (q : UserQueues) (m : Msg) (h : wellPlaced q) :
    wellPlaced (enqueue q m.author m.channel m) := by
  intro u c m' hmem
  by_cases hp : u = m.author ∧ c = m.channel
  · obtain ⟨rfl, rfl⟩ := hp
    rw [lookup2_enqueue_self] at hmem
    rcases List.mem_append.mp hmem with hold | hnew
    · exact h _ _ _ hold
    · simp at hnew; subst hnew; exact ⟨rfl, rfl⟩
  · rw [lookup2_enqueue_other q m.author m.channel u c m hp] at hmem
    exact h _ _ _ hmem

theorem wellPlaced_popFirst (q : UserQueues) (u c : Nat) (m : Msg) (q' : UserQueues)
    (hgk : goodKeys q) (hwp : wellPlaced q) (h : popFirst q = some (u, c, m, q')) :
    wellPlaced q' ∧ m.author = u ∧ m.channel = c := by
  have hself := popFirst_self q u c m q' hgk h
  have hm : m ∈ lookup2 q u c := by rw [hself]; exact List.mem_cons_self _ _
  refine ⟨?_, hwp u c m hm⟩
  intro u' c' m' hmem
  by_cases hp : u' = u ∧ c' = c
  · obtain ⟨rfl, rfl⟩ := hp
    apply hwp
    rw [hself]
    exact List.mem_cons_of_mem _ hmem
  · rw [popFirst_other q u c m q' h u' c' hp] at hmem
    exact hwp _ _ _ hmem

/-- The subsequence of a message list belonging to one (author, channel)
pair. -/
def projR (l : List Msg) (u c : Nat) : List Msg :=
  l.filter (fun m => decide (m.author = u ∧ m.channel = c))

theorem projR_append (l l' : List Msg) (u c : Nat) :
    projR (l ++ l') u c = projR l u c ++ projR l' u c := by
  simp [projR]

theorem projR_single_self (m : Msg) : projR [m] m.author m.channel = [m] := by
  simp [projR]

theorem projR_single_other (m : Msg) (u c : Nat) (h : ¬(m.author = u ∧ m.channel = c)) :
    projR [m] u c = [] := by
  simp [projR, h]

/-- The messages accepted by `on_message` along a schedule: the arrivals
whose author id is a key of the cache `W`, in arrival order. -/
def acceptedMsgs (W : UserCache) (events : List Event) : List Msg :=
  events.filterMap (fun e =>
    match e with
    | Event.arrive m => if (lookupCache W m.author).isSome then some m else none
    | _ => none)

theorem acceptedMsgs_append (W : UserCache) (es es' : List Event) :
    acceptedMsgs W (es ++ es') = acceptedMsgs W es ++ acceptedMsgs W es' := by
  simp [acceptedMsgs]

/-- The pipeline invariant: what the relay trace, the snapshot and the live
queue jointly hold, per (author, channel) pair, is exactly the accepted
arrivals of that pair, in order — with the snapshot ahead of the live
queue.  Together with the bookkeeping facts needed to push it through each
step (constant cache, no cancelled handle on cancel-free schedules, unique
dict keys, per-pair placement, and empty queues whenever the engine handle
reports a clean finish). -/
structure Inv (W : UserCache) (events : List Event) (s : SysState) : Prop where
  watched_eq : s.watched_users = W
  not_cancelled : s.task ≠ TaskState.cancelled
  gk_mq : goodKeys s.message_queue
  gk_cq : goodKeys s.consumption_queue
  wp_mq : wellPlaced s.message_queue
  wp_cq : wellPlaced s.consumption_queue
  pair_eq : ∀ u c,
    projR s.relayed u c ++ lookup2 s.consumption_queue u c ++ lookup2 s.message_queue u c
      = projR (acceptedMsgs W events) u c
  qdone : s.task = TaskState.noTask ∨ s.task = TaskState.doneOk →
    s.message_queue = [] ∧ s.consumption_queue = []

theorem inv_init (W : UserCache) : Inv W [] (initState W) := by
  refine ⟨rfl, by simp [initState], ?_, ?_, wellPlaced_nil, wellPlaced_nil, ?_, ?_⟩
  · exact ⟨List.nodup_nil, by simp [initState]⟩
  · exact ⟨List.nodup_nil, by simp [initState]⟩
  · intro u c; simp [initState, lookup2, acceptedMsgs, projR]
  · intro _; exact ⟨rfl, rfl⟩

/-- An invariant is insensitive to the schedule as long as the accepted
arrivals agree. -/
theorem inv_same_accepted (W : UserCache) (events events' : List Event) (s : SysState)
    (hInv : Inv W events s)
    (hacc : acceptedMsgs W events' = acceptedMsgs W events) : Inv W events' s := by
  obtain ⟨hW, hnc, hgm, hgc, hwm, hwc, hpair, hdone⟩ := hInv
  exact ⟨hW, hnc, hgm, hgc, hwm, hwc, fun u c => by rw [hacc]; exact hpair u c, hdone⟩

theorem pair_eq_enqueue (R : List Msg) (CQ MQ : UserQueues) (A : List Msg) (m : Msg)
    (hpair : ∀ u c, projR R u c ++ lookup2 CQ u c ++ lookup2 MQ u c = projR A u c) :
    ∀ u c,
      projR R u c ++ lookup2 CQ u c ++ lookup2 (enqueue MQ m.author m.channel m) u c
        = projR (A ++ [m]) u c := by
  intro u c
  rw [projR_append]
  by_cases hp : m.author = u ∧ m.channel = c
  · obtain ⟨rfl, rfl⟩ := hp
    rw [projR_single_self, lookup2_enqueue_self, ← hpair]
    simp
  · rw [projR_single_other m u c hp, List.append_nil,
      lookup2_enqueue_other MQ m.author m.channel u c m
        (fun hq => hp ⟨hq.1.symm, hq.2.symm⟩),
      hpair]

theorem inv_arrive_enqueue (W : UserCache) (events : List Event) (s : SysState) (m : Msg)
    (hInv : Inv W events s) (t' : TaskState)
    (hnc' : t' ≠ TaskState.cancelled)
    (hnd' : t' ≠ TaskState.noTask) (hndk : t' ≠ TaskState.doneOk)
    (hw : (lookupCache W m.author).isSome = true) :
    Inv W (events ++ [Event.arrive m])
      { s with task := t',
               message_queue := enqueue s.message_queue m.author m.channel m } := by
  obtain ⟨hW, _, hgm, hgc, hwm, hwc, hpair, _⟩ := hInv
  have hacc : acceptedMsgs W (events ++ [Event.arrive m]) = acceptedMsgs W events ++ [m] := by
    rw [acceptedMsgs_append]; simp [acceptedMsgs, hw]
  refine ⟨hW, hnc', goodKeys_enqueue _ _ _ _ hgm, hgc,
    wellPlaced_enqueue _ m hwm, hwc, ?_, ?_⟩
  · intro u c
    rw [hacc]
    exact pair_eq_enqueue s.relayed s.consumption_queue s.message_queue _ m hpair u c
  · rintro (h | h)
    · exact absurd h hnd'
    · exact absurd h hndk

/-- One cooperative step of a cancel-free schedule preserves the pipeline
invariant. -/
theorem inv_step (limit : Nat) (W : UserCache) (events : List Event) (e : Event)
    (s : SysState) (hInv : Inv W events s) (hne : e ≠ Event.cancel) :
    Inv W (events ++ [e]) (stepFn limit s e) := by
  cases e with
  | arrive m =>
    by_cases hw : (lookupCache W m.author).isSome
    · have hw' : (lookupCache s.watched_users m.author).isSome = true := by
        rw [hInv.watched_eq]; exact hw
      cases ht : s.task with
      | cancelled => exact absurd ht hInv.not_cancelled
      | sleeping =>
        have hstep : stepFn limit s (Event.arrive m)
            = { s with task := TaskState.sleeping,
                       message_queue := enqueue s.message_queue m.author m.channel m } := by
          simp only [stepFn, hw', if_true, ht, consuming_messages]
        rw [hstep]
        exact inv_arrive_enqueue W events s m hInv _ (by simp) (by simp) (by simp) hw
      | draining =>
        have hstep : stepFn limit s (Event.arrive m)
            = { s with task := TaskState.draining,
                       message_queue := enqueue s.message_queue m.author m.channel m } := by
          simp only [stepFn, hw', if_true, ht, consuming_messages]
        rw [hstep]
        exact inv_arrive_enqueue W events s m hInv _ (by simp) (by simp) (by simp) hw
      | noTask =>
        have hstep : stepFn limit s (Event.arrive m)
            = { s with task := TaskState.sleeping,
                       message_queue := enqueue s.message_queue m.author m.channel m } := by
          simp only [stepFn, hw', if_true, ht, consuming_messages]
        rw [hstep]
        exact inv_arrive_enqueue W events s m hInv _ (by simp) (by simp) (by simp) hw
      | doneOk =>
        have hstep : stepFn limit s (Event.arrive m)
            = { s with task := TaskState.sleeping,
                       message_queue := enqueue s.message_queue m.author m.channel m } := by
          simp only [stepFn, hw', if_true, ht, consuming_messages]
        rw [hstep]
        exact inv_arrive_enqueue W events s m hInv _ (by simp) (by simp) (by simp) hw
      | doneExc =>
        have hstep : stepFn limit s (Event.arrive m)
            = { s with task := TaskState.sleeping,
                       message_queue := enqueue s.message_queue m.author m.channel m } := by
          simp only [stepFn, hw', if_true, ht, consuming_messages]
        rw [hstep]
        exact inv_arrive_enqueue W events s m hInv _ (by simp) (by simp) (by simp) hw
    · have hw' : (lookupCache s.watched_users m.author).isSome = false := by
        rw [hInv.watched_eq]; exact Bool.not_eq_true _ ▸ eq_false_of_ne_true (fun h => hw h)
      have hid : stepFn limit s (Event.arrive m) = s := by
        simp [stepFn, hw']
      have hacc : acceptedMsgs W (events ++ [Event.arrive m]) = acceptedMsgs W events := by
        rw [acceptedMsgs_append]
        have : acceptedMsgs W [Event.arrive m] = [] := by
          simp [acceptedMsgs, Bool.eq_false_iff.mp (eq_false_of_ne_true (fun h => hw h))]
        simp [this]
      rw [hid]
      exact inv_same_accepted W events _ s hInv hacc
  | wake =>
    have hacc : acceptedMsgs W (events ++ [Event.wake]) = acceptedMsgs W events := by
      rw [acceptedMsgs_append]; simp [acceptedMsgs]
    by_cases ht : s.task = TaskState.sleeping
    · by_cases hcq : s.consumption_queue.isEmpty
      · have hcqE : s.consumption_queue = [] := List.isEmpty_iff.mp hcq
        have hstep : stepFn limit s Event.wake
            = { s with task := TaskState.draining,
                       consumption_queue := s.message_queue, message_queue := [] } := by
          simp [stepFn, ht, hcq]
        rw [hstep]
        obtain ⟨hW, _, hgm, hgc, hwm, hwc, hpair, _⟩ := hInv
        refine ⟨hW, by simp, ⟨List.nodup_nil, by simp⟩, hgm, wellPlaced_nil, hwm, ?_, ?_⟩
        · intro u c
          rw [hacc]
          have hthis := hpair u c
          rw [hcqE] at hthis
          simpa [lookup2] using hthis
        · rintro (h | h) <;> simp at h
      · have hstep : stepFn limit s Event.wake = { s with task := TaskState.draining } := by
          simp [stepFn, ht, hcq]
        rw [hstep]
        obtain ⟨hW, _, hgm, hgc, hwm, hwc, hpair, _⟩ := hInv
        refine ⟨hW, by simp, hgm, hgc, hwm, hwc,
          fun u c => by rw [hacc]; exact hpair u c, ?_⟩
        rintro (h | h) <;> simp at h
    · have hid : stepFn limit s Event.wake = s := by simp [stepFn, ht]
      rw [hid]
      exact inv_same_accepted W events _ s hInv hacc
  | drainStep =>
    have hacc : acceptedMsgs W (events ++ [Event.drainStep]) = acceptedMsgs W events := by
      rw [acceptedMsgs_append]; simp [acceptedMsgs]
    by_cases ht : s.task = TaskState.draining
    · cases hp : popFirst s.consumption_queue with
      | some v =>
        obtain ⟨u₀, c₀, m, q'⟩ := v
        have hstep : stepFn limit s Event.drainStep
            = { s with consumption_queue := q', relayed := s.relayed ++ [m],
                       message_history := relayHistStep limit s.message_history m } := by
          simp [stepFn, ht, hp]
        rw [hstep]
        obtain ⟨hW, hnc, hgm, hgc, hwm, hwc, hpair, _⟩ := hInv
        obtain ⟨hwq', hma, hmc⟩ := wellPlaced_popFirst _ _ _ _ _ hgc hwc hp
        refine ⟨hW, hnc, hgm, goodKeys_popFirst _ _ _ _ _ hgc hp, hwm, hwq', ?_, ?_⟩
        · intro u c
          rw [hacc, projR_append]
          by_cases hpc : u₀ = u ∧ c₀ = c
          · obtain ⟨rfl, rfl⟩ := hpc
            have hsingle : projR [m] u₀ c₀ = [m] := by
              rw [← hma, ← hmc]; exact projR_single_self m
            rw [hsingle, ← hpair u₀ c₀, popFirst_self _ _ _ _ _ hgc hp]
            simp
          · have hother : ¬(m.author = u ∧ m.channel = c) := by
              rw [hma, hmc]; exact hpc
            rw [projR_single_other m u c hother, List.append_nil,
              popFirst_other _ _ _ _ _ hp u c (fun hq => hpc ⟨hq.1.symm, hq.2.symm⟩),
              hpair u c]
        · rintro (h | h) <;> rw [ht] at h <;> simp at h
      | none =>
        have hid : stepFn limit s Event.drainStep = s := by simp [stepFn, ht, hp]
        rw [hid]
        exact inv_same_accepted W events _ s hInv hacc
    · have hid : stepFn limit s Event.drainStep = s := by simp [stepFn, ht]
      rw [hid]
      exact inv_same_accepted W events _ s hInv hacc
  | finishTask =>
    have hacc : acceptedMsgs W (events ++ [Event.finishTask]) = acceptedMsgs W events := by
      rw [acceptedMsgs_append]; simp [acceptedMsgs]
    by_cases ht : s.task = TaskState.draining
    · cases hp : popFirst s.consumption_queue with
      | none =>
        have hstep : stepFn limit s Event.finishTask
            = { s with consumption_queue := [],
                       task := if s.message_queue.isEmpty then TaskState.doneOk
                               else TaskState.sleeping } := by
          simp [stepFn, ht, hp]
        rw [hstep]
        obtain ⟨hW, _, hgm, hgc, hwm, hwc, hpair, _⟩ := hInv
        refine ⟨hW, ?_, hgm, ⟨List.nodup_nil, by simp⟩, hwm, wellPlaced_nil, ?_, ?_⟩
        · by_cases hm : s.message_queue.isEmpty <;> simp [hm]
        · intro u c
          rw [hacc]
          have hthis := hpair u c
          rw [popFirst_none _ hp u c] at hthis
          simpa [lookup2] using hthis
        · by_cases hm : s.message_queue.isEmpty
          · intro _; exact ⟨List.isEmpty_iff.mp hm, rfl⟩
          · intro hcase; simp [hm] at hcase
      | some v =>
        have hid : stepFn limit s Event.finishTask = s := by simp [stepFn, ht, hp]
        rw [hid]
        exact inv_same_accepted W events _ s hInv hacc
    · have hid : stepFn limit s Event.finishTask = s := by simp [stepFn, ht]
      rw [hid]
      exact inv_same_accepted W events _ s hInv hacc
  | fail =>
    have hacc : acceptedMsgs W (events ++ [Event.fail]) = acceptedMsgs W events := by
      rw [acceptedMsgs_append]; simp [acceptedMsgs]
    by_cases ht : s.task = TaskState.sleeping ∨ s.task = TaskState.draining
    · have hstep : stepFn limit s Event.fail = { s with task := TaskState.doneExc } := by
        simp [stepFn, ht]
      rw [hstep]
      obtain ⟨hW, _, hgm, hgc, hwm, hwc, hpair, _⟩ := hInv
      refine ⟨hW, by simp, hgm, hgc, hwm, hwc,
        fun u c => by rw [hacc]; exact hpair u c, ?_⟩
      rintro (h | h) <;> simp at h
    · have hid : stepFn limit s Event.fail = s := by simp [stepFn, ht]
      rw [hid]
      exact inv_same_accepted W events _ s hInv hacc
  | cancel => exact absurd rfl hne

/-- The pipeline invariant holds in every state reachable by a cancel-free
schedule from a freshly started instance. -/
theorem inv_run (limit : Nat) (W : UserCache) (events : List Event)
    (hnc : Event.cancel ∉ events) :
    Inv W events (run limit (initState W) events) := by
  induction events using List.reverseRecOn with
  | nil => exact inv_init W
  | append_singleton es e ih =>
    have hrw : run limit (initState W) (es ++ [e])
        = stepFn limit (run limit (initState W) es) e := by
      simp [run]
    rw [hrw]
    have hnc1 : Event.cancel ∉ es := fun h => hnc (List.mem_append.mpr (Or.inl h))
    have hne : e ≠ Event.cancel := by
      intro h
      exact hnc (List.mem_append.mpr (Or.inr (by rw [h]; exact List.mem_singleton_self _)))
    exact inv_step limit W es e _ (ih hnc1) hne

/-! ### Cache and removal lemmas -/

theorem lookupCache_cacheInsert_self (cache : UserCache) (u : Nat) (w : WatchEntry) :
    lookupCache (cacheInsert cache u w) u = some w := by
  induction cache with
  | nil => simp [cacheInsert, lookupCache]
  | cons p rest ih =>
    obtain ⟨u₀, w₀⟩ := p
    by_cases hu : u₀ = u
    · subst hu; simp [cacheInsert, lookupCache]
    · simp [cacheInsert, lookupCache, hu, ih]

theorem lookupCache_cacheInsert_other (cache : UserCache) (u v : Nat) (w : WatchEntry)
    (h : v ≠ u) : lookupCache (cacheInsert cache u w) v = lookupCache cache v := by
  induction cache with
  | nil => simp [cacheInsert, lookupCache, Ne.symm h]
  | cons p rest ih =>
    obtain ⟨u₀, w₀⟩ := p
    by_cases hu : u₀ = u
    · subst hu; simp [cacheInsert, lookupCache, Ne.symm h]
    · by_cases hv : u₀ = v
      · subst hv; simp [cacheInsert, lookupCache, hu]
      · simp [cacheInsert, lookupCache, hu, hv, ih]

theorem buildCache_lookup (data : List ApiEntry)
    (hnd : (data.map ApiEntry.user).Nodup) :
    ∀ e ∈ data, lookupCache (buildCache data) e.user = some (entryData e) := by
  induction data using List.reverseRecOn with
  | nil => intro e he; simp at he
  | append_singleton ds d ih =>
    have hbc : buildCache (ds ++ [d]) = cacheInsert (buildCache ds) d.user (entryData d) := by
      simp [buildCache]
    intro e he
    rw [List.map_append] at hnd
    obtain ⟨hnds, _, hdisj⟩ := List.nodup_append.mp hnd
    rcases List.mem_append.mp he with hin | hlast
    · have hne : e.user ≠ d.user := by
        intro hcontra
        exact hdisj (List.mem_map_of_mem _ hin) (by simp [hcontra])
      rw [hbc, lookupCache_cacheInsert_other _ _ _ _ hne]
      exact ih hnds e hin
    · simp at hlast
      subst hlast
      rw [hbc]
      exact lookupCache_cacheInsert_self _ _ _

theorem lookupCache_eq_none (cache : UserCache) (u : Nat)
    (h : u ∉ cache.map Prod.fst) : lookupCache cache u = none := by
  induction cache with
  | nil => rfl
  | cons p rest ih =>
    obtain ⟨u₀, w₀⟩ := p
    rw [List.map_cons] at h
    have hne : u₀ ≠ u := fun hc => h (by simp [hc])
    have hrest : u ∉ rest.map Prod.fst := fun hc => h (List.mem_cons_of_mem _ hc)
    simp [lookupCache, hne, ih hrest]

theorem lookupCache_cachePop_self (cache : UserCache) (u : Nat)
    (hnd : (cache.map Prod.fst).Nodup) : lookupCache (cachePop cache u) u = none := by
  induction cache with
  | nil => rfl
  | cons p rest ih =>
    obtain ⟨u₀, w₀⟩ := p
    rw [List.map_cons] at hnd
    obtain ⟨hu₀, hndr⟩ := List.nodup_cons.mp hnd
    by_cases hu : u₀ = u
    · subst hu
      simp only [cachePop, if_pos rfl]
      exact lookupCache_eq_none rest u₀ hu₀
    · simp [cachePop, hu, lookupCache, ih hndr]

theorem lookupCache_cachePop_other (cache : UserCache) (u v : Nat) (h : v ≠ u) :
    lookupCache (cachePop cache u) v = lookupCache cache v := by
  induction cache with
  | nil => rfl
  | cons p rest ih =>
    obtain ⟨u₀, w₀⟩ := p
    by_cases hu : u₀ = u
    · subst hu; simp [cachePop, lookupCache, Ne.symm h]
    · by_cases hv : u₀ = v
      · subst hv; simp [cachePop, lookupCache, hu]
      · simp [cachePop, lookupCache, hu, hv, ih]

theorem lookup2_eq_nil (q : UserQueues) (u : Nat)
    (h : u ∉ q.map Prod.fst) : ∀ c, lookup2 q u c = [] := by
  induction q with
  | nil => intro c; rfl
  | cons p rest ih =>
    obtain ⟨u₀, cq⟩ := p
    rw [List.map_cons] at h
    have hne : u₀ ≠ u := fun hc => h (by simp [hc])
    have hrest : u ∉ rest.map Prod.fst := fun hc => h (List.mem_cons_of_mem _ hc)
    intro c
    simp [lookup2, hne, ih hrest c]

theorem lookup2_dictPopU_self (q : UserQueues) (u : Nat)
    (hnd : (q.map Prod.fst).Nodup) : ∀ c, lookup2 (dictPopU q u) u c = [] := by
  induction q with
  | nil => intro c; rfl
  | cons p rest ih =>
    obtain ⟨u₀, cq⟩ := p
    rw [List.map_cons] at hnd
    obtain ⟨hu₀, hndr⟩ := List.nodup_cons.mp hnd
    intro c
    by_cases hu : u₀ = u
    · subst hu
      simp only [dictPopU, if_pos rfl]
      exact lookup2_eq_nil rest u₀ hu₀ c
    · simp [dictPopU, hu, lookup2, ih hndr c]

theorem lookup2_dictPopU_other (q : UserQueues) (u v : Nat) (h : v ≠ u) :
    ∀ c, lookup2 (dictPopU q u) v c = lookup2 q v c := by
  induction q with
  | nil => intro c; rfl
  | cons p rest ih =>
    obtain ⟨u₀, cq⟩ := p
    intro c
    by_cases hu : u₀ = u
    · subst hu; simp [dictPopU, lookup2, Ne.symm h]
    · by_cases hv : u₀ = v
      · subst hv; simp [dictPopU, lookup2, hu]
      · simp [dictPopU, lookup2, hu, hv, ih]

/-! ### Channel resolution lemmas -/

theorem resolveChannel_sleeps (avail : Nat → Bool) (l : List Nat) :
    (resolveChannel avail l).2.length ≤ l.length - 1
    ∧ ∀ d ∈ (resolveChannel avail l).2, d = retry_delay := by
  induction l with
  | nil => simp [resolveChannel]
  | cons a rest ih =>
    by_cases ha : avail a
    · simp [resolveChannel, ha]
    · by_cases hrest : rest.isEmpty
      · simp [resolveChannel, ha, hrest]
      · have hlen : 1 ≤ rest.length := by
          cases rest
          · simp at hrest
          · simp
        refine ⟨?_, ?_⟩
        · simp only [resolveChannel, if_neg ha, if_neg hrest, List.length_cons]
          have := ih.1
          omega
        · intro d hd
          simp only [resolveChannel, if_neg ha, if_neg hrest] at hd
          rcases List.mem_cons.mp hd with rfl | htl
          · rfl
          · exact ih.2 d htl

theorem resolveChannel_all_fail (avail : Nat → Bool) (l : List Nat)
    (h : ∀ a ∈ l, avail a = false) :
    (resolveChannel avail l).1 = false ∧ (resolveChannel avail l).2.length = l.length - 1 := by
  induction l with
  | nil => simp [resolveChannel]
  | cons a rest ih =>
    have ha : avail a = false := h a (by simp)
    by_cases hrest : rest.isEmpty
    · have hre : rest = [] := List.isEmpty_iff.mp hrest
      subst hre
      simp [resolveChannel, ha]
    · have hlen : 1 ≤ rest.length := by
        cases rest
        · simp at hrest
        · simp
      have ihr := ih (fun a' ha' => h a' (List.mem_cons_of_mem _ ha'))
      refine ⟨?_, ?_⟩
      · simp [resolveChannel, ha, hrest, ihr.1]
      · simp only [resolveChannel, ha, Bool.false_eq_true, if_false, if_neg hrest,
          List.length_cons]
        rw [ihr.2]
        omega

/-! ### Frame lemmas for the transition system -/

theorem stepFn_watched (limit : Nat) (s : SysState) (e : Event) :
    (stepFn limit s e).watched_users = s.watched_users := by
  cases e <;> simp only [stepFn] <;> (repeat' split) <;> rfl

theorem run_watched (limit : Nat) (s : SysState) (es : List Event) :
    (run limit s es).watched_users = s.watched_users := by
  induction es generalizing s with
  | nil => rfl
  | cons e rest ih =>
    have : run limit s (e :: rest) = run limit (stepFn limit s e) rest := by
      simp [run]
    rw [this, ih, stepFn_watched]

/-! ### Concrete fixtures for witnesses and counterexamples -/

/-- A sample watch entry (`actor`, `reason`, `inserted_at`). -/
def sampleEntry : WatchEntry :=
  { actor := 1, reason := "spam", inserted_at := "2019-04-01T10:00:00.000000Z" }

/-- A cache watching user `5` only. -/
def sampleCache : UserCache := [(5, sampleEntry)]

/-- Watched user 5, channel 10. -/
def msgA1 : Msg := { mid := 1, author := 5, channel := 10, clean_content := "first", has_attachments := false }

/-- Watched user 5, channel 10, second message. -/
def msgA2 : Msg := { mid := 2, author := 5, channel := 10, clean_content := "second", has_attachments := false }

/-- Watched user 5, channel 11. -/
def msgB : Msg := { mid := 3, author := 5, channel := 11, clean_content := "third", has_attachments := false }

/-- Watched user 5, channel 10, third same-pair message. -/
def msgA3 : Msg := { mid := 7, author := 5, channel := 10, clean_content := "x", has_attachments := false }

/-- Watched user 5, channel 10, fourth same-pair message. -/
def msgA4 : Msg := { mid := 8, author := 5, channel := 10, clean_content := "y", has_attachments := false }

/-- A schedule that accepts three messages and drains them to a clean finish. -/
def traceNormal : List Event :=
  [Event.arrive msgA1, Event.arrive msgA2, Event.arrive msgB,
   Event.wake, Event.drainStep, Event.drainStep, Event.drainStep, Event.finishTask]

/-- A schedule in which the engine is cancelled after relaying `msgA1` but
before `msgA2`, followed by the next watched arrival (`msgB`) and by every
scheduler step that could possibly let a consume task make progress. -/
def traceCancelled : List Event :=
  [Event.arrive msgA1, Event.arrive msgA2, Event.wake, Event.drainStep, Event.cancel,
   Event.arrive msgB, Event.wake, Event.drainStep, Event.finishTask]

/-- A schedule in which the engine dies with an unhandled exception after
relaying `msgA1` but before `msgA2`; the next watched arrival (`msgB`)
respawns it and the run completes. -/
def traceFailed : List Event :=
  [Event.arrive msgA1, Event.arrive msgA2, Event.wake, Event.drainStep, Event.fail,
   Event.arrive msgB, Event.wake, Event.drainStep, Event.drainStep, Event.finishTask,
   Event.wake, Event.drainStep, Event.finishTask]

/-! ### The claims -/

/-- C1: for every cancel-free schedule of inbound messages, at any point
where the consume-task handle reports a clean finish (`None`, i.e. never
spawned, or a task that returned normally — the reading of "absent engine
cancellation, all accumulated work drained"), the relay trace contains, for
every (author, channel) pair, exactly the accepted arrivals of that pair in
arrival order (FIFO through enqueue, snapshot swap and drain), and every
message has been relayed exactly as many times as it arrived — in
particular exactly once when the inbound messages are distinct.  Unhandled
engine *failures* are permitted in the schedule: the snapshot-resume logic
preserves the property across them. -/
theorem C1_relay_fifo_exactly_once (limit : Nat) (W : UserCache) (events : List Event)
    (hnc : Event.cancel ∉ events)
    (hq : (run limit (initState W) events).task = TaskState.noTask
        ∨ (run limit (initState W) events).task = TaskState.doneOk) :
    (∀ u c, projR (run limit (initState W) events).relayed u c
        = projR (acceptedMsgs W events) u c)
    ∧ (∀ m : Msg, (run limit (initState W) events).relayed.count m
        = (acceptedMsgs W events).count m) := by
  have hInv := inv_run limit W events hnc
  obtain ⟨hme, hce⟩ := hInv.qdone hq
  have hproj : ∀ u c, projR (run limit (initState W) events).relayed u c
      = projR (acceptedMsgs W events) u c := by
    intro u c
    have hthis := hInv.pair_eq u c
    rw [hme, hce] at hthis
    simpa [lookup2] using hthis
  refine ⟨hproj, ?_⟩
  intro m
  have h1 : (projR (run limit (initState W) events).relayed m.author m.channel).count m
      = (run limit (initState W) events).relayed.count m :=
    List.count_filter (by simp)
  have h2 : (projR (acceptedMsgs W events) m.author m.channel).count m
      = (acceptedMsgs W events).count m :=
    List.count_filter (by simp)
  rw [← h1, hproj m.author m.channel, h2]

theorem C1_witness :
    projR (run 3 (initState sampleCache) traceNormal).relayed 5 10
      = projR (acceptedMsgs sampleCache traceNormal) 5 10
    ∧ (run 3 (initState sampleCache) traceNormal).relayed.count msgA1
      = (acceptedMsgs sampleCache traceNormal).count msgA1 :=
  ⟨(C1_relay_fifo_exactly_once 3 sampleCache traceNormal (by decide) (by decide)).1 5 10,
   (C1_relay_fifo_exactly_once 3 sampleCache traceNormal (by decide) (by decide)).2 msgA1⟩

/-- C2 counterexample: the claim's cancellation scenario fails on the code.
After `arrive msgA1, arrive msgA2, wake, drainStep` the engine has relayed
`msgA1` with `msgA2` still in the snapshot; it is then cancelled.  On the
next watched arrival (`msgB`), `consuming_messages` evaluates
`self._consume_task.exception()` on a *cancelled* task, which raises
`CancelledError` out of `on_message` before the spawn and the append — so
no new run starts (`task` is still `cancelled`, the live queue stays empty,
`msgB` is dropped), and `msgA2` is never relayed even after every further
scheduler step the model offers.  The relay trace remains `[msgA1]`,
contradicting "the next run still relays M2". -/
theorem C2_counterexample :
    (run 3 (initState sampleCache) traceCancelled).relayed = [msgA1]
    ∧ (run 3 (initState sampleCache) traceCancelled).task = TaskState.cancelled
    ∧ lookup2 (run 3 (initState sampleCache) traceCancelled).consumption_queue 5 10 = [msgA2]
    ∧ (run 3 (initState sampleCache) traceCancelled).message_queue = [] := by
  decide

/-- C2 (amended): if a consumption run starts while the pending snapshot
(`consumption_queue`) is key-non-empty from a prior failed or interrupted
run, the engine drains that same snapshot without swapping in the live
queue; consequently, if the engine *fails with an unhandled exception*
after relaying M1 but before M2, the next intake-triggered run still relays
M2 and does not relay M1 again.  (For *cancellation* the consequence does
not hold: the activity check's `Task.exception()` call raises
`CancelledError` inside `on_message`, so no next run is spawned — see the
counterexample.) -/
theorem C2_snapshot_resume (limit : Nat) (s : SysState)
    (ht : s.task = TaskState.sleeping) (hcq : s.consumption_queue ≠ []) :
    ((stepFn limit s Event.wake).consumption_queue = s.consumption_queue
      ∧ (stepFn limit s Event.wake).message_queue = s.message_queue
      ∧ (stepFn limit s Event.wake).task = TaskState.draining)
    ∧ ((run 3 (initState sampleCache) traceFailed).relayed = [msgA1, msgA2, msgB]
      ∧ (run 3 (initState sampleCache) traceFailed).relayed.count msgA1 = 1
      ∧ (run 3 (initState sampleCache) traceFailed).task = TaskState.doneOk) := by
  constructor
  · have hne : ¬s.consumption_queue.isEmpty := by
      intro hemp
      exact hcq (List.isEmpty_iff.mp hemp)
    have hstep : stepFn limit s Event.wake = { s with task := TaskState.draining } := by
      simp [stepFn, ht, hne]
    rw [hstep]
    exact ⟨rfl, rfl, rfl⟩
  · refine ⟨by decide, by decide, by decide⟩

/-- State with `msgA2` pending in the snapshot and `msgA1` already relayed,
as left behind by an interrupted drain. -/
def resumedState : SysState :=
  { watched_users := sampleCache, message_queue := [],
    consumption_queue := [(5, [(10, [msgA2])])], relayed := [msgA1],
    message_history := {}, task := TaskState.sleeping }

theorem C2_witness :
    ((stepFn 3 resumedState Event.wake).consumption_queue = resumedState.consumption_queue
      ∧ (stepFn 3 resumedState Event.wake).message_queue = resumedState.message_queue
      ∧ (stepFn 3 resumedState Event.wake).task = TaskState.draining)
    ∧ ((run 3 (initState sampleCache) traceFailed).relayed = [msgA1, msgA2, msgB]
      ∧ (run 3 (initState sampleCache) traceFailed).relayed.count msgA1 = 1
      ∧ (run 3 (initState sampleCache) traceFailed).task = TaskState.doneOk) :=
  C2_snapshot_resume 3 resumedState (by decide) (by decide)

theorem headerRequired_iff (limit : Nat) (h : MessageHistory) (m : Msg) :
    headerRequired limit h m = true
      ↔ (h.last_author ≠ some m.author ∨ h.last_channel ≠ some m.channel
          ∨ limit ≤ h.message_count) := by
  simp [headerRequired, Bool.or_eq_true, bne_iff_ne, decide_eq_true_iff, or_assoc]

theorem headerSent_mem_iff (limit : Nat) (env : RelayEnv) (h : MessageHistory)
    (m : Msg) (b : Bool) :
    SendEvent.headerSent b ∈ (relay_message limit env h m).2
      ↔ (headerRequired limit h m = true ∧ b = env.header_send_ok) := by
  obtain ⟨hs, bs, att⟩ := env
  cases att <;> by_cases hreq : headerRequired limit h m
    <;> by_cases hcc : m.clean_content = ""
    <;> by_cases hat : m.has_attachments
    <;> simp [relay_message, hreq, hcc, hat]

/-- C3: a header precedes a relayed message iff its author differs from
`last_author`, or its channel differs from `last_channel`, or
`message_count` has reached the configured threshold (the first message of
a run always qualifies because both trackers start as `None`); on a header
the tracker is reset to the new (author, channel) with count 0; and with
threshold 3 the same-pair sequence A,A,A,A gets headers before message 1
and before message 4 only. -/
theorem C3_header_policy (limit : Nat) (env : RelayEnv) (h : MessageHistory) (m : Msg) :
    ((∃ b, SendEvent.headerSent b ∈ (relay_message limit env h m).2)
      ↔ (h.last_author ≠ some m.author ∨ h.last_channel ≠ some m.channel
          ∨ limit ≤ h.message_count))
    ∧ (headerRequired limit h m = true → updatedHistory limit h m = resetHistory m)
    ∧ headerRequired limit { last_author := none, last_channel := none, message_count := 0 } m
        = true
    ∧ relayHeaderFlags 3 {} [msgA1, msgA2, msgA3, msgA4] = [true, false, false, true] := by
  refine ⟨?_, ?_, ?_, by decide⟩
  · constructor
    · rintro ⟨b, hb⟩
      exact (headerRequired_iff limit h m).mp ((headerSent_mem_iff limit env h m b).mp hb).1
    · intro hcond
      exact ⟨env.header_send_ok,
        (headerSent_mem_iff limit env h m env.header_send_ok).mpr
          ⟨(headerRequired_iff limit h m).mpr hcond, rfl⟩⟩
  · intro hreq
    simp [updatedHistory, hreq]
  · simp [headerRequired]

theorem C3_witness :
    updatedHistory 3 { last_author := some 9, last_channel := some 10, message_count := 1 } msgA1
      = resetHistory msgA1 :=
  (C3_header_policy 3 { header_send_ok := true, body_send_ok := true, attach := AttachOutcome.ok }
    { last_author := some 9, last_channel := some 10, message_count := 1 } msgA1).2.1 (by decide)

/-- C4: single-flight discipline of the consume task.  The activity check
`consuming_messages` reports active exactly when the (unique) task handle
holds a not-yet-done task, so intake can never stack a second active
drainer on top of a running one; a previous unhandled failure is logged by
the check (the `logged` flag) on the way to reporting inactive; and the
`arrive` step replaces the task handle with a freshly spawned task only
when the check reported inactive — in which case the `logged` flag was set
precisely when the previous task had failed. -/
theorem C4_single_flight (limit : Nat) (s : SysState) (m : Msg) :
    (∀ t : TaskState, consuming_messages t = CheckResult.result true false
      ↔ (t = TaskState.sleeping ∨ t = TaskState.draining))
    ∧ consuming_messages TaskState.doneExc = CheckResult.result false true
    ∧ consuming_messages TaskState.doneOk = CheckResult.result false false
    ∧ consuming_messages TaskState.noTask = CheckResult.result false false
    ∧ ((stepFn limit s (Event.arrive m)).task ≠ s.task →
        (stepFn limit s (Event.arrive m)).task = TaskState.sleeping
        ∧ consuming_messages s.task
            = CheckResult.result false (decide (s.task = TaskState.doneExc)))
    ∧ (consuming_messages s.task = CheckResult.result true false →
        (stepFn limit s (Event.arrive m)).task = s.task) := by
  refine ⟨?_, rfl, rfl, rfl, ?_, ?_⟩
  · intro t
    cases t <;> simp [consuming_messages]
  · intro hchange
    by_cases hw : (lookupCache s.watched_users m.author).isSome
    · cases ht : s.task with
      | noTask =>
        exact ⟨by simp [stepFn, hw, ht, consuming_messages], by simp [ht, consuming_messages]⟩
      | doneOk =>
        exact ⟨by simp [stepFn, hw, ht, consuming_messages], by simp [ht, consuming_messages]⟩
      | doneExc =>
        exact ⟨by simp [stepFn, hw, ht, consuming_messages], by simp [ht, consuming_messages]⟩
      | sleeping =>
        exact absurd (by simp [stepFn, hw, ht, consuming_messages]) hchange
      | draining =>
        exact absurd (by simp [stepFn, hw, ht, consuming_messages]) hchange
      | cancelled =>
        exact absurd (by simp [stepFn, hw, ht, consuming_messages]) hchange
    · exact absurd (by simp [stepFn, hw]) hchange
  · intro hcm
    cases ht : s.task <;> rw [ht] at hcm <;> simp [consuming_messages] at hcm
    · by_cases hw : (lookupCache s.watched_users m.author).isSome
      · simp [stepFn, hw, ht, consuming_messages]
      · simp [stepFn, hw, ht]
    · by_cases hw : (lookupCache s.watched_users m.author).isSome
      · simp [stepFn, hw, ht, consuming_messages]
      · simp [stepFn, hw, ht]

theorem C4_witness :
    (stepFn 3 (initState sampleCache) (Event.arrive msgA1)).task = TaskState.sleeping
    ∧ consuming_messages (initState sampleCache).task
        = CheckResult.result false (decide ((initState sampleCache).task = TaskState.doneExc)) :=
  (C4_single_flight 3 (initState sampleCache) msgA1).2.2.2.2.1 (by decide)

/-- C5: `fetch_user_cache` on an API error (`aiohttp.ClientResponseError`)
returns `False` and leaves the cache exactly as it was; on success it
returns `True` and replaces the cache wholesale with `buildCache data` —
an expression of the API data alone, independent of the previous cache —
whose entries are keyed by user id and carry the remaining
(actor, reason, inserted_at) fields. -/
theorem C5_cache_refresh (old : UserCache) (data : List ApiEntry) :
    fetch_user_cache none old = (false, old)
    ∧ fetch_user_cache (some data) old = (true, buildCache data)
    ∧ ((data.map ApiEntry.user).Nodup →
        ∀ e ∈ data, lookupCache (buildCache data) e.user = some (entryData e)) := by
  refine ⟨rfl, rfl, ?_⟩
  intro hnd e he
  exact buildCache_lookup data hnd e he

/-- A sample API entry for user 5. -/
def apiE1 : ApiEntry :=
  { user := 5, actor := 1, reason := "spam", inserted_at := "2019-04-01T10:00:00.000000Z" }

theorem C5_witness :
    lookupCache (buildCache [apiE1]) apiE1.user = some (entryData apiE1) :=
  (C5_cache_refresh [] [apiE1]).2.2 (by decide) apiE1 (by decide)

theorem mem_acceptedMsgs (W : UserCache) (events : List Event) (m : Msg) :
    m ∈ acceptedMsgs W events → (lookupCache W m.author).isSome := by
  intro h
  simp only [acceptedMsgs, List.mem_filterMap] at h
  obtain ⟨e, _, hmatch⟩ := h
  cases e with
  | arrive m2 =>
    by_cases hw : (lookupCache W m2.author).isSome
    · have hm2 : (if (lookupCache W m2.author).isSome then some m2 else none)
          = some m := hmatch
      rw [if_pos hw] at hm2
      obtain rfl := Option.some.inj hm2
      exact hw
    · have hm2 : (if (lookupCache W m2.author).isSome then some m2 else none)
          = some m := hmatch
      rw [if_neg hw] at hm2
      exact absurd hm2 (by simp)
  | wake => exact absurd hmatch (by simp)
  | drainStep => exact absurd hmatch (by simp)
  | finishTask => exact absurd hmatch (by simp)
  | fail => exact absurd hmatch (by simp)
  | cancel => exact absurd hmatch (by simp)

/-- C6: in any state reached by a cancellation-free schedule, `on_message`
for a non-watched author is a no-op, and no message of a non-watched
author is ever in the live queue, the snapshot, or the relay trace;
`on_message` for a watched author appends the message at the tail of its
own (author, channel) deque, touches no other deque, leaves the snapshot
and the relay trace alone, and spawns a fresh consume task iff the
activity check reports no active one (so the message is retained by the
pipeline whether or not the spawn happens in the same handler
invocation). -/
theorem C6_on_message (limit : Nat) (W : UserCache) (events : List Event) (m : Msg)
    (hnc : Event.cancel ∉ events) (s : SysState)
    (hs : s = run limit (initState W) events) :
    (lookupCache W m.author = none →
      stepFn limit s (Event.arrive m) = s
      ∧ (∀ u c, m ∉ lookup2 s.message_queue u c ∧ m ∉ lookup2 s.consumption_queue u c)
      ∧ m ∉ s.relayed)
    ∧ ((lookupCache W m.author).isSome →
      lookup2 (stepFn limit s (Event.arrive m)).message_queue m.author m.channel
          = lookup2 s.message_queue m.author m.channel ++ [m]
      ∧ (∀ u c, ¬(u = m.author ∧ c = m.channel) →
          lookup2 (stepFn limit s (Event.arrive m)).message_queue u c
            = lookup2 s.message_queue u c)
      ∧ (stepFn limit s (Event.arrive m)).consumption_queue = s.consumption_queue
      ∧ (stepFn limit s (Event.arrive m)).relayed = s.relayed
      ∧ (consuming_messages s.task = CheckResult.result true false →
          (stepFn limit s (Event.arrive m)).task = s.task)
      ∧ (∀ b, consuming_messages s.task = CheckResult.result false b →
          (stepFn limit s (Event.arrive m)).task = TaskState.sleeping)) := by
  have hInv : Inv W events s := hs ▸ inv_run limit W events hnc
  have hW : s.watched_users = W := hInv.watched_eq
  constructor
  · intro hnone
    have hw' : (lookupCache s.watched_users m.author).isSome = false := by
      rw [hW, hnone]; rfl
    have hnotmem : ∀ u c,
        m ∉ lookup2 s.message_queue u c ∧ m ∉ lookup2 s.consumption_queue u c := by
      intro u c
      have hpe := hInv.pair_eq u c
      constructor
      · intro hmem
        have hacc : m ∈ projR (acceptedMsgs W events) u c := by
          rw [← hpe]
          exact List.mem_append.mpr (Or.inr hmem)
        have := mem_acceptedMsgs W events m (List.mem_of_mem_filter hacc)
        rw [hnone] at this
        exact absurd this (by simp)
      · intro hmem
        have hacc : m ∈ projR (acceptedMsgs W events) u c := by
          rw [← hpe]
          exact List.mem_append.mpr (Or.inl (List.mem_append.mpr (Or.inr hmem)))
        have := mem_acceptedMsgs W events m (List.mem_of_mem_filter hacc)
        rw [hnone] at this
        exact absurd this (by simp)
    refine ⟨by simp [stepFn, hw'], hnotmem, ?_⟩
    · intro hmem
      have : m ∈ projR (acceptedMsgs W events) m.author m.channel := by
        rw [← hInv.pair_eq m.author m.channel]
        refine List.mem_append.mpr (Or.inl (List.mem_append.mpr (Or.inl ?_)))
        simp [projR, hmem]
      have := mem_acceptedMsgs W events m (List.mem_of_mem_filter this)
      rw [hnone] at this
      exact absurd this (by simp)
  · intro hw
    have hw' : (lookupCache s.watched_users m.author).isSome = true := by
      rw [hW]; exact hw
    have htask : s.task ≠ TaskState.cancelled := hInv.not_cancelled
    cases ht : s.task
    case cancelled => exact absurd ht htask
    case sleeping =>
      have hred : stepFn limit s (Event.arrive m)
          = { s with message_queue := enqueue s.message_queue m.author m.channel m } := by
        simp [stepFn, hw', ht, consuming_messages]
      rw [hred]
      refine ⟨lookup2_enqueue_self _ _ _ _, ?_, rfl, rfl, fun _ => ht, ?_⟩
      · intro u c hne
        exact lookup2_enqueue_other _ _ _ _ _ _ hne
      · intro b hcm
        simp [consuming_messages] at hcm
    case draining =>
      have hred : stepFn limit s (Event.arrive m)
          = { s with message_queue := enqueue s.message_queue m.author m.channel m } := by
        simp [stepFn, hw', ht, consuming_messages]
      rw [hred]
      refine ⟨lookup2_enqueue_self _ _ _ _, ?_, rfl, rfl, fun _ => ht, ?_⟩
      · intro u c hne
        exact lookup2_enqueue_other _ _ _ _ _ _ hne
      · intro b hcm
        simp [consuming_messages] at hcm
    case noTask =>
      have hred : stepFn limit s (Event.arrive m)
          = { s with task := TaskState.sleeping,
                     message_queue := enqueue s.message_queue m.author m.channel m } := by
        simp [stepFn, hw', ht, consuming_messages]
      rw [hred]
      refine ⟨lookup2_enqueue_self _ _ _ _, ?_, rfl, rfl, ?_, fun _ _ => rfl⟩
      · intro u c hne
        exact lookup2_enqueue_other _ _ _ _ _ _ hne
      · intro hcm
        simp [consuming_messages] at hcm
    case doneOk =>
      have hred : stepFn limit s (Event.arrive m)
          = { s with task := TaskState.sleeping,
                     message_queue := enqueue s.message_queue m.author m.channel m } := by
        simp [stepFn, hw', ht, consuming_messages]
      rw [hred]
      refine ⟨lookup2_enqueue_self _ _ _ _, ?_, rfl, rfl, ?_, fun _ _ => rfl⟩
      · intro u c hne
        exact lookup2_enqueue_other _ _ _ _ _ _ hne
      · intro hcm
        simp [consuming_messages] at hcm
    case doneExc =>
      have hred : stepFn limit s (Event.arrive m)
          = { s with task := TaskState.sleeping,
                     message_queue := enqueue s.message_queue m.author m.channel m } := by
        simp [stepFn, hw', ht, consuming_messages]
      rw [hred]
      refine ⟨lookup2_enqueue_self _ _ _ _, ?_, rfl, rfl, ?_, fun _ _ => rfl⟩
      · intro u c hne
        exact lookup2_enqueue_other _ _ _ _ _ _ hne
      · intro hcm
        simp [consuming_messages] at hcm

/-- A message from a user that `sampleCache` does not watch. -/
def msgUnwatched : Msg :=
  { mid := 9, author := 6, channel := 10, clean_content := "hello", has_attachments := false }

theorem C6_witness :
    stepFn 3 (run 3 (initState sampleCache) traceNormal) (Event.arrive msgUnwatched)
        = run 3 (initState sampleCache) traceNormal
    ∧ (∀ u c,
        msgUnwatched ∉ lookup2 (run 3 (initState sampleCache) traceNormal).message_queue u c
        ∧ msgUnwatched ∉ lookup2 (run 3 (initState sampleCache) traceNormal).consumption_queue u c)
    ∧ msgUnwatched ∉ (run 3 (initState sampleCache) traceNormal).relayed :=
  (C6_on_message 3 sampleCache traceNormal msgUnwatched (by decide)
    (run 3 (initState sampleCache) traceNormal) rfl).1 (by decide)

/-- C7: startup resolves the destination channel with a fixed budget of
`retries = 5` attempts separated by `retry_delay = 10` second sleeps (at
most 4 sleeps, exactly 4 when the channel never appears); if the channel or
the webhook is unresolved, the fatal alert is sent, the cog is removed and
no cache refresh is attempted (the cache is untouched); if both resolve,
the initial refresh runs — its failure raises the warning alert but the
cog stays loaded, while success installs the fetched cache. -/
theorem C7_startup (env : StartEnv) (old : UserCache) :
    retries = 5 ∧ retry_delay = 10
    ∧ (∀ d ∈ (start_watchchannel env old).sleeps, d = 10)
    ∧ (start_watchchannel env old).sleeps.length ≤ 4
    ∧ ((∀ a ∈ List.range' 1 5, env.channel_available a = false) →
        (start_watchchannel env old).channel_found = false
        ∧ (start_watchchannel env old).sleeps.length = 4)
    ∧ ((start_watchchannel env old).cog_removed = true
        ↔ ((start_watchchannel env old).channel_found = false ∨ env.webhook_ok = false))
    ∧ ((start_watchchannel env old).cog_removed = true →
        (start_watchchannel env old).refresh_attempted = false
        ∧ (start_watchchannel env old).fatal_alert = true
        ∧ (start_watchchannel env old).cache = old)
    ∧ ((start_watchchannel env old).cog_removed = false →
        (start_watchchannel env old).refresh_attempted = true
        ∧ (start_watchchannel env old).fatal_alert = false
        ∧ (env.api = none →
            (start_watchchannel env old).warn_alert = true
            ∧ (start_watchchannel env old).cache = old)
        ∧ (∀ d, env.api = some d →
            (start_watchchannel env old).warn_alert = false
            ∧ (start_watchchannel env old).cache = buildCache d)) := by
  have hsl := resolveChannel_sleeps env.channel_available (List.range' 1 retries)
  have hlen5 : (List.range' 1 retries).length = 5 := by simp [retries]
  by_cases hcond :
      (resolveChannel env.channel_available (List.range' 1 retries)).1 = false
        ∨ env.webhook_ok = false
  · refine ⟨rfl, rfl, ?_, ?_, ?_, ?_, ?_, ?_⟩
    · intro d hd
      simp only [start_watchchannel, if_pos hcond] at hd
      exact hsl.2 d hd
    · simp only [start_watchchannel, if_pos hcond]
      have := hsl.1
      omega
    · intro hall
      have := resolveChannel_all_fail env.channel_available (List.range' 1 retries)
        (by rw [show retries = 5 from rfl]; exact hall)
      simp only [start_watchchannel, if_pos hcond]
      exact ⟨this.1, by rw [this.2, hlen5]⟩
    · simp only [start_watchchannel, if_pos hcond]
      simpa using hcond
    · intro _
      simp [start_watchchannel, if_pos hcond]
    · intro hfalse
      simp [start_watchchannel, if_pos hcond] at hfalse
  · have hch : (resolveChannel env.channel_available (List.range' 1 retries)).1 = true := by
      rcases Bool.eq_false_or_eq_true
        (resolveChannel env.channel_available (List.range' 1 retries)).1 with ht | hf
      · exact ht
      · exact absurd (Or.inl hf) hcond
    refine ⟨rfl, rfl, ?_, ?_, ?_, ?_, ?_, ?_⟩
    · intro d hd
      simp only [start_watchchannel, if_neg hcond] at hd
      exact hsl.2 d hd
    · simp only [start_watchchannel, if_neg hcond]
      have := hsl.1
      omega
    · intro hall
      have := resolveChannel_all_fail env.channel_available (List.range' 1 retries)
        (by rw [show retries = 5 from rfl]; exact hall)
      exact absurd this.1 (by rw [hch]; simp)
    · simp only [start_watchchannel, if_neg hcond]
      simpa using hcond
    · intro hfalse
      simp [start_watchchannel, if_neg hcond] at hfalse
    · intro _
      cases hapi : env.api with
      | none =>
        simp [start_watchchannel, if_neg hcond, hapi, fetch_user_cache]
      | some d0 =>
        simp [start_watchchannel, if_neg hcond, hapi, fetch_user_cache]

/-- An environment in which the destination channel never resolves. -/
def envNoChannel : StartEnv :=
  { channel_available := fun _ => false, webhook_ok := true, api := none }

theorem C7_witness :
    (start_watchchannel envNoChannel []).channel_found = false
    ∧ (start_watchchannel envNoChannel []).sleeps.length = 4 :=
  (C7_startup envNoChannel []).2.2.2.2.1 (by decide)

/-- Transport outcomes with a failing body send (the webhook raises
`HTTPException` on the body message; `webhook_send` logs and swallows it). -/
def failBodyEnv : RelayEnv :=
  { header_send_ok := true, body_send_ok := false, attach := AttachOutcome.ok }

/-- A tracker matching `msgA1`'s (author, channel) with a count below any
threshold of interest, so that no header is due. -/
def histSame : MessageHistory :=
  { last_author := some 5, last_channel := some 10, message_count := 1 }

/-- C8 counterexample: the claim says the `message_count` increment is
conditional on the body send succeeding.  In the code the increment at line
272 is unconditional: `webhook_send` catches and swallows the
`HTTPException` of a failed body send, so `relay_message` cannot observe
the failure.  Concretely, relaying `msgA1` while the body send fails still
increments the count from 1 to 2. -/
theorem C8_counterexample :
    SendEvent.bodySent false ∈ (relay_message 3 failBodyEnv histSame msgA1).2
    ∧ (relay_message 3 failBodyEnv histSame msgA1).1.message_count
        = histSame.message_count + 1 := by
  decide

/-- C8 (amended): for every relayed message the running count is
incremented exactly once, unconditionally — independent of the body-send
outcome, of whether a body was sent at all (empty `clean_content`), and of
the attachment outcome; indeed the resulting tracker does not depend on the
transport outcomes in any way. -/
theorem C8_increment_unconditional (limit : Nat) (env : RelayEnv)
    (h : MessageHistory) (m : Msg) :
    (relay_message limit env h m).1.message_count
      = (updatedHistory limit h m).message_count + 1
    ∧ ∀ env' : RelayEnv, (relay_message limit env h m).1 = (relay_message limit env' h m).1 :=
  ⟨rfl, fun _ => rfl⟩

/-- C9: `_remove_user` evicts exactly the given user: afterwards the user
has no cache entry, no live-queue deque and no snapshot deque, while every
other user's cache entry, live-queue deques and snapshot deques are
untouched, and the relay trace (already-relayed messages), the header
tracker and the consume-task handle are unchanged.  The operation is pure
dict manipulation of the three containers — no cache refresh is involved
(the resulting cache is a function of the old cache alone). -/
theorem C9_remove_user (s : SysState) (u : Nat)
    (hndW : (s.watched_users.map Prod.fst).Nodup)
    (hndM : (s.message_queue.map Prod.fst).Nodup)
    (hndC : (s.consumption_queue.map Prod.fst).Nodup) :
    lookupCache (removeUser s u).watched_users u = none
    ∧ (∀ c, lookup2 (removeUser s u).message_queue u c = [])
    ∧ (∀ c, lookup2 (removeUser s u).consumption_queue u c = [])
    ∧ (∀ v, v ≠ u →
        lookupCache (removeUser s u).watched_users v = lookupCache s.watched_users v)
    ∧ (∀ v c, v ≠ u →
        lookup2 (removeUser s u).message_queue v c = lookup2 s.message_queue v c)
    ∧ (∀ v c, v ≠ u →
        lookup2 (removeUser s u).consumption_queue v c = lookup2 s.consumption_queue v c)
    ∧ (removeUser s u).relayed = s.relayed
    ∧ (removeUser s u).message_history = s.message_history
    ∧ (removeUser s u).task = s.task := by
  refine ⟨?_, ?_, ?_, ?_, ?_, ?_, rfl, rfl, rfl⟩
  · exact lookupCache_cachePop_self s.watched_users u hndW
  · exact lookup2_dictPopU_self s.message_queue u hndM
  · exact lookup2_dictPopU_self s.consumption_queue u hndC
  · intro v hv
    exact lookupCache_cachePop_other s.watched_users u v hv
  · intro v c hv
    exact lookup2_dictPopU_other s.message_queue u v hv c
  · intro v c hv
    exact lookup2_dictPopU_other s.consumption_queue u v hv c

/-- A state with user 5 watched and one pending message in each container;
removing user 5 must clear all of it. -/
def stateForRemoval : SysState :=
  { watched_users := sampleCache, message_queue := [(5, [(10, [msgA1])])],
    consumption_queue := [(5, [(10, [msgA2])])], relayed := [msgB],
    message_history := {}, task := TaskState.doneOk }

theorem C9_witness :
    lookupCache (removeUser stateForRemoval 5).watched_users 5 = none
    ∧ (∀ c, lookup2 (removeUser stateForRemoval 5).message_queue 5 c = [])
    ∧ (∀ c, lookup2 (removeUser stateForRemoval 5).consumption_queue 5 c = [])
    ∧ (∀ v, v ≠ 5 →
        lookupCache (removeUser stateForRemoval 5).watched_users v
          = lookupCache stateForRemoval.watched_users v)
    ∧ (∀ v c, v ≠ 5 →
        lookup2 (removeUser stateForRemoval 5).message_queue v c
          = lookup2 stateForRemoval.message_queue v c)
    ∧ (∀ v c, v ≠ 5 →
        lookup2 (removeUser stateForRemoval 5).consumption_queue v c
          = lookup2 stateForRemoval.consumption_queue v c)
    ∧ (removeUser stateForRemoval 5).relayed = stateForRemoval.relayed
    ∧ (removeUser stateForRemoval 5).message_history = stateForRemoval.message_history
    ∧ (removeUser stateForRemoval 5).task = stateForRemoval.task :=
  C9_remove_user stateForRemoval 5 (by decide) (by decide) (by decide)

/-- C10: `cog_unload` invoked before any consume task was ever spawned.
After construction `self._consume_task` is `None` (line 66), and it stays
`None` along any schedule that contains no arrival from a watched user
(only `on_message` for a watched author ever assigns the handle).
`cog_unload`'s first action, `self._consume_task.done()` (line 345), is
then an attribute access on `None` and raises `AttributeError` instead of
shutting down cleanly. -/
theorem C10_unload_before_spawn (limit : Nat) (W : UserCache) (events : List Event)
    (hnowatch : ∀ m : Msg, Event.arrive m ∈ events → lookupCache W m.author = none) :
    (initState W).task = TaskState.noTask
    ∧ (run limit (initState W) events).task = TaskState.noTask
    ∧ cog_unload (run limit (initState W) events).task
        = Except.error PyError.attributeError := by
  have key : ∀ es : List Event,
      (∀ m : Msg, Event.arrive m ∈ es → lookupCache W m.author = none) →
      (run limit (initState W) es).task = TaskState.noTask := by
    intro es
    induction es using List.reverseRecOn with
    | nil => intro _; rfl
    | append_singleton es' e ih =>
      intro h
      have hrw : run limit (initState W) (es' ++ [e])
          = stepFn limit (run limit (initState W) es') e := by
        simp [run]
      rw [hrw]
      have hts := ih (fun m hm => h m (List.mem_append.mpr (Or.inl hm)))
      cases e with
      | arrive m =>
        have hwm : lookupCache W m.author = none := h m (by simp)
        have hwu : (run limit (initState W) es').watched_users = W := by
          have := run_watched limit (initState W) es'
          simpa [initState] using this
        have hfalse : (lookupCache (run limit (initState W) es').watched_users
            m.author).isSome = false := by
          rw [hwu, hwm]; rfl
        simp only [stepFn, hfalse, Bool.false_eq_true, if_false]
        exact hts
      | wake => simp [stepFn, hts]
      | drainStep => simp [stepFn, hts]
      | finishTask => simp [stepFn, hts]
      | fail => simp [stepFn, hts]
      | cancel => simp [stepFn, hts]
  have hk := key events hnowatch
  exact ⟨rfl, hk, by rw [hk]; rfl⟩

theorem C10_witness :
    (initState ([] : UserCache)).task = TaskState.noTask
    ∧ (run 3 (initState ([] : UserCache)) [Event.arrive msgA1, Event.wake]).task
        = TaskState.noTask
    ∧ cog_unload (run 3 (initState ([] : UserCache)) [Event.arrive msgA1, Event.wake]).task
        = Except.error PyError.attributeError :=
  C10_unload_before_spawn 3 [] [Event.arrive msgA1, Event.wake] (fun _ _ => rfl)

end WatchBot
